import Mathlib

/-!
Verification of the WQAM water-quality ingestion and evaluation pipeline.

This file shallowly embeds the core of the dashboard backend:

* backend/main.py — header cleaning and parameter mapping
  (`_prepare_dataframe`, `_map_columns_to_parameters`), column resolution
  (`_slugify`, `_match_parameter_column`), numeric coercion
  (`_coerce_to_numeric`), gap filling, threshold evaluation and report
  assembly (`_build_report_payload`);
* backend/ml_service.py — heuristic pollution scoring
  (`compute_pollution_score`), parameter extraction
  (`extract_parameters_from_df`) and ML recommendation synthesis
  (`get_ml_insights`).

Python floats are modelled as rationals (ℚ).  Pandas Series cells are
modelled by the `Cell` type; NaN is `Cell.null`.  Library behaviour that
the source relies on is modelled explicitly and conservatively:
`pd.to_numeric(_, errors="coerce")` on a string is a strict decimal parse
(optional sign, digits, at most one decimal point — the exponent form
never survives the character strip that precedes parsing in this code
base), on a missing value it is NaN, and applied to a duplicated column
label it raises TypeError (selecting a duplicated label yields a
two-column DataFrame, which `pd.to_numeric` rejects); this uncaught
exception is modelled as the `Err.typeError` outcome of report building.
-/

set_option maxRecDepth 16000

namespace WQAM

/-- A raw table cell: missing (NaN), textual, or numeric. -/
inductive Cell
  | null
  | str (s : String)
  | num (q : ℚ)
  deriving DecidableEq, Repr

/-- A generic rectangular table: ordered headers plus row-major cells.
Ragged rows are read as padded with nulls, as pandas does when frames
are assembled from shorter rows. -/
structure RawTable where
  headers : List String
  rows : List (List Cell)
  deriving DecidableEq, Repr

/-! String utilities mirroring the Python primitives used by the source. -/

/-- Whether the first list is an initial segment of the second
(helper for the substring test). -/
def chPre : List Char → List Char → Bool
  | [], _ => true
  | _ :: _, [] => false
  | n :: ns, h :: hs => n == h && chPre ns hs

/-- Whether the first list occurs contiguously inside the second. -/
def chSub (needle : List Char) : List Char → Bool
  | [] => needle.isEmpty
  | h :: hs => chPre needle (h :: hs) || chSub needle hs

/-- Python's substring test for strings: the second argument occurs inside
the first, as in the expression written with the in-operator. -/
def strContains (hay needle : String) : Bool := chSub needle.data hay.data

/-- Python's whitespace split-and-rejoin: split on whitespace runs, drop
empties, join with single spaces.  This is the net effect of the header
cleaning in the source (strip, newline replacement, split, join). -/
def collapseWs (s : String) : String :=
  String.intercalate " " ((s.split Char.isWhitespace).filter (fun w => w ≠ ""))

/-- Embedding of main.py's slug normalizer:
lowercase and keep only alphanumeric characters. -/
def slugify (s : String) : String :=
  String.mk (s.toLower.data.filter Char.isAlphanum)

/-- One step of the run-collapsing substitution used by
main.py's column-name normalizer; the boolean records whether the
previous emitted character was the underscore replacing a run. -/
def normRunsChars : Bool → List Char → List Char
  | _, [] => []
  | prevUnd, c :: cs =>
    if c.isAlphanum then c :: normRunsChars false cs
    else if prevUnd then normRunsChars true cs
    else '_' :: normRunsChars true cs

/-- Embedding of main.py's normalize_colname: replace each run of
non-alphanumeric characters by a single underscore, strip, lowercase. -/
def normalizeColname (s : String) : String :=
  (String.mk (normRunsChars false s.data)).trim.toLower

/-! Numeric parsing, modelling Python float conversion as used by
pandas to_numeric with coercion on failure. -/

/-- Decimal value of a digit list (most significant first). -/
def digitsVal (cs : List Char) : ℕ :=
  cs.foldl (fun a c => 10 * a + (c.toNat - 48)) 0

/-- Parse an unsigned decimal numeral: digits, optionally followed by a
decimal point and digits; at least one digit overall; nothing else. -/
def parseUnsigned (cs : List Char) : Option ℚ :=
  let ip := cs.takeWhile Char.isDigit
  let rest := cs.dropWhile Char.isDigit
  match rest with
  | [] => if ip.isEmpty then none else some (digitsVal ip : ℚ)
  | r :: frac =>
    if r == '.' && frac.all Char.isDigit && (!ip.isEmpty || !frac.isEmpty) then
      some ((digitsVal ip : ℚ) + (digitsVal frac : ℚ) / 10 ^ frac.length)
    else none

/-- Parse an optionally signed decimal numeral. -/
def parseSigned (cs : List Char) : Option ℚ :=
  match cs with
  | [] => parseUnsigned []
  | c :: rest =>
    if c == '-' then (parseUnsigned rest).map (fun q => -q)
    else if c == '+' then parseUnsigned rest
    else parseUnsigned (c :: rest)

/-- Strip leading and trailing whitespace from a character list. -/
def charTrim (cs : List Char) : List Char :=
  ((cs.dropWhile Char.isWhitespace).reverse.dropWhile Char.isWhitespace).reverse

/-- Model of Python/pandas numeric string conversion with coercion:
surrounding whitespace is ignored, anything that is not a plain signed
decimal numeral becomes missing. -/
def pyParseNumber (s : String) : Option ℚ := parseSigned (charTrim s.data)

/-- Model of per-cell pandas to_numeric with coercion as used on
resolved columns: numbers pass through, strings are parsed, missing
values stay missing. -/
def cellToNumeric : Cell → Option ℚ
  | Cell.null => none
  | Cell.str s => pyParseNumber s
  | Cell.num q => some q

/-! Numeric coercion (main.py coerce_to_numeric): per cell, the regex
strip keeping digits, dots and minus signs, followed by to_numeric. -/

/-- The character class kept by the strip regex in main.py's
coerce_to_numeric: digits, decimal points and minus signs. -/
def keptChar (c : Char) : Bool := c.isDigit || c == '.' || c == '-'

/-- Embedding of the regex strip in coerce_to_numeric: delete every
character outside the kept class. -/
def pdStrip (s : String) : String := String.mk (s.data.filter keptChar)

/-- Embedding of main.py's coerce_to_numeric, per cell, on the cell's
text: strip the character class, then numeric conversion with coercion
to missing on failure. -/
def coerce_cell (s : String) : Option ℚ := pyParseNumber (pdStrip s)

/-! Statistics helpers (Python min, max, numpy mean on nonempty lists). -/

/-- Minimum of a list, 0 on the empty list (only used on nonempty input,
as in the source). -/
def listMin : List ℚ → ℚ
  | [] => 0
  | q :: qs => qs.foldl min q

/-- Maximum of a list, 0 on the empty list (only used on nonempty input,
as in the source). -/
def listMax : List ℚ → ℚ
  | [] => 0
  | q :: qs => qs.foldl max q

/-- Arithmetic mean (numpy mean, pandas mean over non-null values). -/
def listMean (l : List ℚ) : ℚ := l.sum / l.length

/-- Python's round-half-to-even on rationals, to the nearest integer. -/
def rne (q : ℚ) : ℤ :=
  let n := ⌊q⌋
  let f := q - n
  if f < 1 / 2 then n
  else if 1 / 2 < f then n + 1
  else if n % 2 = 0 then n else n + 1

/-- Python's round(x, 3): banker's rounding to three decimal places. -/
def round3 (q : ℚ) : ℚ := (rne (q * 1000) : ℚ) / 1000

/-! Threshold evaluation (the severity block of build_report_payload). -/

/-- Minimum-threshold violation test: a configured minimum exists and the
observed minimum is below it. -/
def minViol (thr : Option ℚ) (v : ℚ) : Bool :=
  match thr with
  | some m => decide (v < m)
  | none => false

/-- Maximum-threshold violation test: a configured maximum exists and the
observed maximum is above it. -/
def maxViol (thr : Option ℚ) (v : ℚ) : Bool :=
  match thr with
  | some m => decide (v > m)
  | none => false

/-- Hysteresis escalation test from build_report_payload: minimum below
0.8 times the min threshold, or maximum above 1.2 times the max
threshold. -/
def hystViol (tmin tmax : Option ℚ) (vmin vmax : ℚ) : Bool :=
  (match tmin with
   | some m => decide (vmin < m * (8 / 10))
   | none => false) ||
  (match tmax with
   | some m => decide (vmax > m * (12 / 10))
   | none => false)

/-- Embedding of the status assignment sequence in build_report_payload:
start at ok, demote to warning on either threshold violation, then
overwrite with critical on the hysteresis condition. -/
def evaluate_status (tmin tmax : Option ℚ) (vmin vmax : ℚ) : String :=
  let s1 := if minViol tmin vmin then "warning" else "ok"
  let s2 := if maxViol tmax vmax then "warning" else s1
  if hystViol tmin tmax vmin vmax then "critical" else s2

/-! Pollution scorer (ml_service.py compute_pollution_score). -/

/-- Embedding of ml_service.py's compute_pollution_score.  The input
models the Python dict of parameter value lists: a total function where
an absent parameter maps to the empty list (dict get with default). -/
def compute_pollution_score (values : String → List ℚ) : ℚ × String :=
  let bod := values "bod"
  let dox := values "do"
  let cod := values "cod"
  let ph := values "ph"
  let tds := values "tds"
  let score : ℚ :=
    0 +
    (if !bod.isEmpty then
      if listMax bod > 6 then 2 else if listMax bod > 3 then 1 else 0
     else 0) +
    (if !dox.isEmpty then
      if listMin dox < 3 then 2 else if listMin dox < 5 then 1 else 0
     else 0) +
    (if !cod.isEmpty && listMax cod > 250 then 1 else 0) +
    (if !ph.isEmpty then
      if listMean ph < 13 / 2 || listMean ph > 17 / 2 then 1 / 2 else 0
     else 0) +
    (if !tds.isEmpty && listMax tds > 2000 then 1 / 2 else 0)
  let label :=
    if score ≥ 3 then "POLLUTED"
    else if score ≥ 3 / 2 then "MODERATE"
    else "GOOD"
  (score, label)

/-! Static configuration (main.py PARAMETERS and COLUMN_ALIASES). -/

/-- Static metadata of one recognized parameter (main.py PARAMETERS
entry): display label, unit, optional thresholds, remediation text. -/
structure ParamConfig where
  label : String
  unit : String
  tmin : Option ℚ
  tmax : Option ℚ
  directive : Option String
  deriving DecidableEq, Repr

/-- Embedding of main.py's PARAMETERS registry, in dict insertion
order. -/
def PARAMETERS : List (String × ParamConfig) :=
  [("ph", ⟨"pH", "", some (13 / 2), some (17 / 2),
      some "Dose lime or acid to keep pH within 6.5-8.5."⟩),
   ("turbidity", ⟨"Turbidity", "NTU", none, some 5,
      some "Check filters/backwash to reduce particulate load."⟩),
   ("tds", ⟨"TDS", "mg/L", none, some 500,
      some "Investigate source water or ion exchange before distribution."⟩),
   ("do", ⟨"Dissolved Oxygen", "mg/L", some 5, none,
      some "Increase aeration/recirculation for better oxygen transfer."⟩),
   ("bod", ⟨"BOD", "mg/L", none, some 3,
      some "Biological treatment required if BOD exceeds 3 mg/L."⟩),
   ("cod", ⟨"COD", "mg/L", none, some 250,
      some "Investigate industrial effluents; consider advanced oxidation processes."⟩),
   ("chlorine", ⟨"Free Chlorine", "ppm", some (1 / 5), some (1 / 2),
      some "Tweak dosing pump to maintain disinfectant residual."⟩)]

/-- The recognized parameter keys, in evaluation order. -/
def paramKeys : List String := PARAMETERS.map Prod.fst

/-- Embedding of main.py's COLUMN_ALIASES: normalized header slug to
parameter key. -/
def COLUMN_ALIASES : List (String × String) :=
  [("ph", "ph"), ("potentialofhydrogen", "ph"),
   ("turbidity", "turbidity"), ("ntu", "turbidity"),
   ("tds", "tds"), ("totaldissolvedsolids", "tds"), ("totaldissolved", "tds"),
   ("dissolvedoxygen", "do"), ("do", "do"), ("d.o.", "do"), ("oxygen", "do"),
   ("bod", "bod"), ("b.o.d", "bod"), ("biochemical", "bod"),
   ("biochemicaloxygendemand", "bod"),
   ("cod", "cod"), ("chemical", "cod"), ("chemicaloxygendemand", "cod"),
   ("freechlorine", "chlorine"), ("chlorine", "chlorine"), ("cl2", "chlorine")]

/-- Dict lookup in the alias table. -/
def aliasLookup (slug : String) : Option String :=
  (COLUMN_ALIASES.find? (fun p => p.1 == slug)).map Prod.snd

/-- Keyword fragments of match_parameter_column's strategy 2, keyed by
parameter. -/
def matchKeywordTable : List (String × List String) :=
  [("bod", ["bod", "b.o.d", "biochemical"]),
   ("cod", ["cod", "chemical"]),
   ("do", ["do", "dissolved", "d.o."]),
   ("ph", ["ph"]),
   ("tds", ["tds", "total dissolved"]),
   ("turbidity", ["turbidity", "ntu"]),
   ("chlorine", ["chlorine", "freechlorine", "cl2"])]

/-- Keyword list for a key in strategy 2 (dict get with empty default). -/
def matchKeywords (key : String) : List String :=
  ((matchKeywordTable.find? (fun p => p.1 == key)).map Prod.snd).getD []

/-- Keyword fragments of map_columns_to_parameters, keyed by parameter,
in dict insertion order. -/
def mapKeywordTable : List (String × List String) :=
  [("bod", ["bod", "biochemical", "b.o.d", "b o d"]),
   ("cod", ["cod", "chemical"]),
   ("do", ["dissolved oxygen", "d.o.", " do ", "do "]),
   ("ph", ["ph", "ph "]),
   ("tds", ["tds", "total dissolved"]),
   ("turbidity", ["turbidity", "ntu"]),
   ("chlorine", ["chlorine", "freechlorine", "cl2", "free chlorine"]),
   ("temp", ["temp", "temperature"])]

/-- Keyword fragments of ml_service.py's extract_parameters_from_df,
keyed by parameter, in dict insertion order. -/
def mlKeywordTable : List (String × List String) :=
  [("bod", ["bod", "biochemical", "b.o.d"]),
   ("cod", ["cod", "chemical"]),
   ("do", ["do", "dissolved oxygen", "d.o."]),
   ("ph", ["ph", "ph "]),
   ("tds", ["tds", "total dissolved"]),
   ("turbidity", ["turbidity", "ntu"]),
   ("chlorine", ["chlorine", "freechlorine", "cl2"])]

/-! Column resolution (main.py match_parameter_column). -/

/-- Strategy 1 test for one header: its slug resolves to the key through
the alias table, or the slug literally equals the key. -/
def strategy1Hit (key c : String) : Bool :=
  aliasLookup (slugify c) == some key || slugify c == key

/-- Python dict insertion: update the value in place when the key is
present, append otherwise. -/
def dictInsert (k v : String) : List (String × String) → List (String × String)
  | [] => [(k, v)]
  | p :: rest => if p.1 == k then (k, v) :: rest else p :: dictInsert k v rest

/-- Python dict built from a pair sequence: iteration order is first
insertion of each key, the value is the last one written. -/
def pyDict (pairs : List (String × String)) : List (String × String) :=
  pairs.foldl (fun d p => dictInsert p.1 p.2 d) []

/-- Embedding of main.py's match_parameter_column: first a pass over the
headers looking for an alias or literal slug hit, then a keyword-major
substring search over the dict of lowercased headers. -/
def match_parameter_column (columns : List String) (key : String) : Option String :=
  match columns.find? (strategy1Hit key) with
  | some c => some c
  | none =>
    let dict := pyDict (columns.map (fun c => (c.toLower, c)))
    (matchKeywords key).findSome? (fun kw =>
      dict.findSome? (fun p => if strContains p.1 kw then some p.2 else none))

/-! Table preparation (main.py prepare_dataframe with
map_columns_to_parameters). -/

/-- Header cleaning in prepare_dataframe: collapse whitespace and
newlines; an empty result takes a positional name. -/
def cleanHeaderName (i : ℕ) (s : String) : String :=
  let t := collapseWs s
  if t = "" then "column_" ++ toString i else t

/-- Clean every header, positions feeding the fallback names. -/
def cleanHeaders (hs : List String) : List String :=
  hs.enum.map (fun p => cleanHeaderName p.1 p.2)

/-- Rename step of map_columns_to_parameters for one header: the first
parameter, in dict order, one of whose keyword fragments occurs in the
lowercased header or in its underscore-normalized form; otherwise the
header is unchanged. -/
def mapColumnName (c : String) : String :=
  let cl := c.trim.toLower
  let cn := normalizeColname c.trim
  match mapKeywordTable.findSome? (fun p =>
      if p.2.any (fun kw => strContains cl kw || strContains cn kw) then some p.1
      else none) with
  | some p => p
  | none => c

/-- Whether the first n cells of a row are all missing (pandas dropna
with how set to all; short rows read as null-padded). -/
def rowAllNull (n : ℕ) (r : List Cell) : Bool :=
  (List.range n).all (fun i => r.getD i Cell.null == Cell.null)

/-- Embedding of prepare_dataframe: clean header names, drop all-null
rows, rename parameter-like columns. -/
def prepare_dataframe (t : RawTable) : RawTable :=
  let hs := cleanHeaders t.headers
  { headers := hs.map mapColumnName,
    rows := t.rows.filter (fun r => !rowAllNull hs.length r) }

/-! Column access on a table with possibly duplicated labels. -/

/-- Number of columns bearing a label. -/
def labelCount (t : RawTable) (c : String) : ℕ := t.headers.count c

/-- Cells of the first column bearing a label (the unique one whenever
the label is not duplicated). -/
def columnCells (t : RawTable) (c : String) : List Cell :=
  let i := t.headers.findIdx (fun h => h == c)
  t.rows.map (fun r => r.getD i Cell.null)

/-! Time alignment (the timestamp block of build_report_payload). -/

/-- Candidate timestamp header names (main.py TIME_COLUMN_CANDIDATES). -/
def TIME_CANDIDATES : List String :=
  ["timestamp", "time", "date", "datetime", "sampletime"]

/-- Locate the timestamp column: first header whose stripped lowercase
form is a candidate name. -/
def findTimeColumn (hs : List String) : Option String :=
  hs.find? (fun c => TIME_CANDIDATES.contains c.trim.toLower)

/-- Whether a cell is numeric (the cells our model lets pandas
to_datetime parse; textual dates are conservatively treated as
unparseable, which only switches the pipeline to the synthesized
timestamp axis and is unobservable in the report fields modelled
here). -/
def cellIsNum : Cell → Bool
  | Cell.num _ => true
  | _ => false

/-- Failure taxonomy of report assembly.  The first two are the
HTTPExceptions raised in build_report_payload; typeError models the
uncaught pandas TypeError/ValueError raised when a duplicated column
label is selected (a two-column frame reaches to_numeric or
to_datetime). -/
inductive Err
  | emptyAfterCleaning
  | noRecognizedParameters
  | typeError
  deriving DecidableEq, Repr

/-- Time-alignment step: selecting a duplicated timestamp label fails;
otherwise, when no candidate exists or none of its values parses, the
synthesized generated_timestamp column is appended.  The datetime
rewrite of a kept timestamp column is not modelled: no timestamp
candidate label can be resolved as a parameter, so those cells are never
read again by the stages modelled here. -/
def timeStep (t : RawTable) : Except Err RawTable :=
  match findTimeColumn t.headers with
  | some c =>
    if labelCount t c ≠ 1 then Except.error Err.typeError
    else if (columnCells t c).all (fun x => !cellIsNum x) then
      Except.ok { t with headers := t.headers ++ ["generated_timestamp"] }
    else Except.ok t
  | none => Except.ok { t with headers := t.headers ++ ["generated_timestamp"] }

/-! Gap filling (pandas ffill and bfill on a numeric column). -/

/-- Forward fill with an incoming carry value. -/
def ffillGo (carry : Option ℚ) : List (Option ℚ) → List (Option ℚ)
  | [] => []
  | none :: rest => carry :: ffillGo carry rest
  | some q :: rest => some q :: ffillGo (some q) rest

/-- Pandas ffill: each missing entry takes the nearest earlier value. -/
def ffill (l : List (Option ℚ)) : List (Option ℚ) := ffillGo none l

/-- Pandas bfill: each missing entry takes the nearest later value. -/
def bfill (l : List (Option ℚ)) : List (Option ℚ) :=
  (ffillGo none l.reverse).reverse

/-! Threshold evaluation loop and report assembly
(build_report_payload). -/

/-- One parameter's summary row of the report. -/
structure Summary where
  parameter : String
  unit : String
  average : ℚ
  minimum : ℚ
  maximum : ℚ
  status : String
  directive : Option String
  deriving DecidableEq, Repr

/-- One alert of the report (the generated id and the message text,
which embed a fresh UUID and the evaluation instant, are not
modelled). -/
structure Alert where
  title : String
  severity : String
  deriving DecidableEq, Repr

/-- The assembled report (fields not bearing on the verified claims —
id, uploader, timestamps, location, forecasts, the optional regressor
score — are omitted). -/
structure Report where
  parameters : List Summary
  timeseries : List (String × List ℚ)
  alerts : List Alert
  recommendations : List String
  mapStatus : String
  pollutionScore : Option ℚ
  pollutionLabel : Option String
  deriving DecidableEq, Repr

/-- Accumulator of the per-parameter evaluation loop. -/
structure LoopState where
  summaries : List Summary
  series : List (String × List ℚ)
  alerts : List Alert
  recommendations : List String
  deriving DecidableEq, Repr

/-- Body of the evaluation loop for one parameter key: resolve a column,
coerce it, gap-fill, skip if entirely missing, otherwise compute rounded
statistics, classify severity, emit alert and directive on a non-ok
status, and append the summary and series. -/
def processKey (t : RawTable) (st : LoopState) (key : String) (cfg : ParamConfig) :
    Except Err LoopState :=
  match match_parameter_column t.headers key with
  | none => Except.ok st
  | some c =>
    if labelCount t c ≠ 1 then Except.error Err.typeError
    else
      let vals := (columnCells t c).map cellToNumeric
      let filled := bfill (ffill vals)
      let qs := filled.filterMap id
      if qs.isEmpty then Except.ok st
      else
        let avg := listMean qs
        let minv := listMin qs
        let maxv := listMax qs
        let status := evaluate_status cfg.tmin cfg.tmax minv maxv
        let st1 :=
          if status ≠ "ok" then
            { st with
              alerts := st.alerts ++
                [⟨cfg.label ++ " out of range",
                  if status == "critical" then "critical" else "warning"⟩],
              recommendations :=
                match cfg.directive with
                | some d =>
                  if st.recommendations.contains d then st.recommendations
                  else st.recommendations ++ [d]
                | none => st.recommendations }
          else st
        Except.ok
          { st1 with
            summaries := st1.summaries ++
              [⟨cfg.label, cfg.unit, round3 avg, round3 minv, round3 maxv, status,
                if status ≠ "ok" then cfg.directive else none⟩],
            series := st1.series ++
              [(cfg.label, filled.map (fun o => round3 (o.getD 0)))] }

/-- The evaluation loop over the parameter registry. -/
def runLoop (t : RawTable) : Except Err LoopState :=
  PARAMETERS.foldlM (fun st p => processKey t st p.1 p.2) ⟨[], [], [], []⟩

/-! ML insights (ml_service.py extract_parameters_from_df,
compute_pollution_score, get_ml_insights). -/

/-- Column-name normalization of extract_parameters_from_df: lowercase,
strip, newline replacement, whitespace collapse. -/
def mlNormalize (c : String) : String := collapseWs c.toLower

/-- Embedding of extract_parameters_from_df: over the dict of normalized
header names, concatenate the coerced non-null values of every column a
keyword fragment matches; a column with a duplicated label raises inside
the loop and is skipped by the handler; parameters with no values are
dropped. -/
def extract_parameters_from_df (t : RawTable) : List (String × List ℚ) :=
  let ncols := pyDict (t.headers.map (fun c => (mlNormalize c, c)))
  mlKeywordTable.filterMap (fun p =>
    let values := ncols.foldl (fun acc q =>
      if p.2.any (fun kw => strContains q.1 kw) then
        if labelCount t q.2 = 1 then
          acc ++ (columnCells t q.2).filterMap cellToNumeric
        else acc
      else acc) []
    if values.isEmpty then none else some (p.1, values))

/-- Dict get with empty-list default over the extracted parameters. -/
def lookupValues (m : List (String × List ℚ)) (k : String) : List ℚ :=
  ((m.find? (fun p => p.1 == k)).map Prod.snd).getD []

/-- The default recommendation the ML stage appends when none of its own
findings fire. -/
def mlAllClear : String := "All monitored parameters are within acceptable ranges."

/-- The heuristic score and label of get_ml_insights, present when at
least one parameter was extracted. -/
def mlScoreLabel (t : RawTable) : Option (ℚ × String) :=
  let params := extract_parameters_from_df t
  if params.isEmpty then none
  else some (compute_pollution_score (lookupValues params))

/-- The condition-driven recommendations of get_ml_insights, before the
default is supplied. -/
def mlRawRecs (t : RawTable) : List String :=
  let params := extract_parameters_from_df t
  let label := (mlScoreLabel t).map Prod.snd
  let dox := lookupValues params "do"
  let bod := lookupValues params "bod"
  let ph := lookupValues params "ph"
  (if label = some "POLLUTED" then
    ["Immediate action required: Water quality is below acceptable standards."]
   else if label = some "MODERATE" then
    ["Monitor closely: Water quality is approaching threshold limits."]
   else []) ++
  (if !dox.isEmpty && listMin dox < 5 then
    ["Low dissolved oxygen detected. Increase aeration and reduce organic load."]
   else []) ++
  (if !bod.isEmpty && listMax bod > 6 then
    ["High BOD detected. Prioritize biological treatment upgrades."]
   else []) ++
  (if !ph.isEmpty && (listMean ph < 13 / 2 || listMean ph > 17 / 2) then
    ["pH out of optimal range. Adjust with acid/alkali dosing."]
   else [])

/-- Embedding of the get_ml_insights fields consumed by report assembly:
the heuristic score and label (when any parameter was extracted) and the
recommendation list, which is never empty thanks to its own default. -/
def get_ml_insights (t : RawTable) : Option (ℚ × String) × List String :=
  (mlScoreLabel t,
    if (mlRawRecs t).isEmpty then [mlAllClear] else mlRawRecs t)

/-- The default recommendation of the threshold stage when no parameter
raised an alert. -/
def thresholdAllClear : String :=
  "All monitored parameters fall within the configured guardrails."

/-- Merge of the ML recommendations into the list built so far,
skipping strings already present (the merge loop at the end of
build_report_payload). -/
def mergeRecs (recs0 : List String) (mlRecs : List String) : List String :=
  mlRecs.foldl (fun acc r => if acc.contains r then acc else acc ++ [r]) recs0

/-- Assembly of the final report from the loop state and the ML
insights: default recommendation when the loop produced none, duplicate-
free merge of the ML recommendations, and the qualitative map status
derived from the alert severities. -/
def assembleReport (t : RawTable) (st : LoopState) : Report :=
  let recs0 := if st.recommendations.isEmpty then [thresholdAllClear]
    else st.recommendations
  let ml := get_ml_insights t
  { parameters := st.summaries,
    timeseries := st.series,
    alerts := st.alerts,
    recommendations := mergeRecs recs0 ml.2,
    mapStatus :=
      if st.alerts.any (fun a => a.severity == "critical") then "poor"
      else if st.alerts.any (fun a => a.severity == "warning") then "warning"
      else "good",
    pollutionScore := ml.1.map Prod.fst,
    pollutionLabel := ml.1.map Prod.snd }

/-- Embedding of build_report_payload on an in-memory table: prepare,
fail on an empty frame, align time, evaluate every parameter, fail when
nothing was recognized, then assemble the report. -/
def buildReport (t0 : RawTable) : Except Err Report :=
  let tp := prepare_dataframe t0
  if tp.rows.isEmpty || tp.headers.isEmpty then Except.error Err.emptyAfterCleaning
  else
    match timeStep tp with
    | Except.error e => Except.error e
    | Except.ok t =>
      match runLoop t with
      | Except.error e => Except.error e
      | Except.ok st =>
        if st.summaries.isEmpty then Except.error Err.noRecognizedParameters
        else Except.ok (assembleReport t st)

/-- Whether report assembly succeeded. -/
def reportOk : Except Err Report → Bool
  | Except.ok _ => true
  | Except.error _ => false

/-- The summaries of a report assembly outcome (empty on failure). -/
def reportSummaries : Except Err Report → List Summary
  | Except.ok r => r.parameters
  | Except.error _ => []

/-- The error of a report assembly outcome, when it failed. -/
def reportErr : Except Err Report → Option Err
  | Except.ok _ => none
  | Except.error e => some e

/-- The recommendations of a report assembly outcome (empty on
failure). -/
def reportRecs : Except Err Report → List String
  | Except.ok r => r.recommendations
  | Except.error _ => []

/-- The table the evaluation loop runs on when time alignment succeeds:
the prepared table, with the synthesized generated_timestamp column
appended when no timestamp candidate exists or none of its values
parses. -/
def timeAligned (t : RawTable) : RawTable :=
  match findTimeColumn t.headers with
  | some c =>
    if (columnCells t c).all (fun x => !cellIsNum x) then
      { t with headers := t.headers ++ ["generated_timestamp"] }
    else t
  | none => { t with headers := t.headers ++ ["generated_timestamp"] }

/-! Claim-side definitions: formalizations written from the
specification's words, to be compared with the embeddings above. -/

/-- The strip step exactly as the specification words it for numeric
coercion: keep digits and decimal points, and keep a minus sign only
when it is the single leading kept character; the flag records whether
anything has been kept yet. -/
def specStripGo : Bool → List Char → List Char
  | _, [] => []
  | keptAny, c :: rest =>
    if c.isDigit || c == '.' then c :: specStripGo true rest
    else if c == '-' && !keptAny then c :: specStripGo true rest
    else specStripGo keptAny rest

/-- The coercion procedure exactly as the specification words it: strip
to digits, one leading minus and decimal points, then parse as a double,
with empty or degenerate remainders becoming null. -/
def coerceCellSpec (s : String) : Option ℚ :=
  let r := String.mk (specStripGo false s.data)
  if r = "" || r = "." || r = "-" then none else pyParseNumber r

/-- Declarative well-formedness of an unsigned decimal numeral: at least
one digit, nothing but digits and decimal points, and at most one
decimal point. -/
def unsignedOk (cs : List Char) : Bool :=
  cs.any Char.isDigit && cs.all (fun c => c.isDigit || c == '.') &&
    cs.count '.' ≤ 1

/-- Declarative value of an unsigned decimal numeral: the digits before
the first decimal point, plus the digits after it scaled down by their
count. -/
def unsignedVal (cs : List Char) : ℚ :=
  let ip := cs.takeWhile (fun c => c != '.')
  let fp := (cs.dropWhile (fun c => c != '.')).drop 1
  (digitsVal ip : ℚ) + (digitsVal fp : ℚ) / 10 ^ fp.length

/-- The character list with one leading minus sign removed. -/
def numeralCore (cs : List Char) : List Char :=
  if cs.head? == some '-' then cs.tail else cs

/-- Declarative shape of a plain signed decimal numeral: an optional
single leading minus sign followed by a well-formed unsigned numeral. -/
def plainNumeral (cs : List Char) : Bool := unsignedOk (numeralCore cs)

/-- Declarative value of a plain signed decimal numeral. -/
def numeralValue (cs : List Char) : ℚ :=
  if cs.head? == some '-' then -unsignedVal (numeralCore cs)
  else unsignedVal (numeralCore cs)

/-- The organic-load contribution as the claim words it: on a nonempty
list, max above 6 scores 2, else max above 3 scores 1; an absent or
empty list contributes zero. -/
def bodPoints (l : List ℚ) : ℚ :=
  if !l.isEmpty then
    if listMax l > 6 then 2 else if listMax l > 3 then 1 else 0
  else 0

/-- The oxygen contribution as the claim words it: minimum below 3
scores 2, else minimum below 5 scores 1; empty contributes zero. -/
def doPoints (l : List ℚ) : ℚ :=
  if !l.isEmpty then
    if listMin l < 3 then 2 else if listMin l < 5 then 1 else 0
  else 0

/-- The secondary-organic contribution as the claim words it: maximum
above 250 scores 1; empty contributes zero. -/
def codPoints (l : List ℚ) : ℚ :=
  if !l.isEmpty && listMax l > 250 then 1 else 0

/-- The acidity contribution as the claim words it: mean outside the
band from 6.5 to 8.5 scores one half; empty contributes zero. -/
def phPoints (l : List ℚ) : ℚ :=
  if !l.isEmpty then
    if listMean l < 13 / 2 || listMean l > 17 / 2 then 1 / 2 else 0
  else 0

/-- The dissolved-solids contribution as the claim words it: maximum
above 2000 scores one half; empty contributes zero. -/
def tdsPoints (l : List ℚ) : ℚ :=
  if !l.isEmpty && listMax l > 2000 then 1 / 2 else 0

/-- The label mapping as the claim words it. -/
def labelOf (score : ℚ) : String :=
  if score ≥ 3 then "POLLUTED" else if score ≥ 3 / 2 then "MODERATE" else "GOOD"

/-- Strategy 2 hit test of the column resolver, as the claim words it: a
keyword fragment of the key occurs inside the lowercased (not
slug-normalized) header. -/
def keywordHit (key c : String) : Bool :=
  (matchKeywords key).any (fun kw => strContains c.toLower kw)

/-- Lookup of a parameter's static configuration by key. -/
def paramConfig (key : String) : Option ParamConfig :=
  (PARAMETERS.find? (fun p => p.1 == key)).map Prod.snd

/-- Whether a summary's rounded statistics are consistently ordered:
minimum at most average at most maximum. -/
def goodSummary (s : Summary) : Bool :=
  decide (s.minimum ≤ s.average) && decide (s.average ≤ s.maximum)

/-- The finite pool of recommendation strings the ML stage can emit. -/
def mlRecPool : List String :=
  ["Immediate action required: Water quality is below acceptable standards.",
   "Monitor closely: Water quality is approaching threshold limits.",
   "Low dissolved oxygen detected. Increase aeration and reduce organic load.",
   "High BOD detected. Prioritize biological treatment upgrades.",
   "pH out of optimal range. Adjust with acid/alkali dosing.",
   mlAllClear]

/-! Concrete tables used by witnesses and counterexamples. -/

/-- Two raw headers resolving to the dissolved-oxygen key, as in the
specification's duplicate-header example. -/
def exDup : RawTable :=
  ⟨["DO (mg/L)", "do"], [[Cell.null, Cell.num 6], [Cell.num 5, Cell.null]]⟩

/-- Two raw headers resolving to the organic-load key. -/
def exDupW : RawTable := ⟨["bod", "b.o.d x"], [[Cell.num 1, Cell.num 2]]⟩

/-- A table with an unrecognized column whose only row is entirely
missing, so it cleans to an empty frame. -/
def exStation : RawTable := ⟨["station"], [[Cell.null]]⟩

/-- A table with an unrecognized column and one surviving row. -/
def exStationRow : RawTable := ⟨["station"], [[Cell.num 1]]⟩

/-- A one-row dissolved-oxygen table whose value is in range. -/
def exDo6 : RawTable := ⟨["do"], [[Cell.num 6]]⟩

/-- A one-row dissolved-oxygen table with a non-numeric cell. -/
def exAbc : RawTable := ⟨["do"], [[Cell.str "abc"]]⟩

/-- A one-row pH table with an in-range value. -/
def exPh7 : RawTable := ⟨["ph"], [[Cell.num 7]]⟩

/-- The first pollution-score example mapping of the claim:
bod 7, do 2, cod 10, ph 7.0, tds 100. -/
def exVals1 : String → List ℚ := fun s =>
  if s = "bod" then [7] else if s = "do" then [2]
  else if s = "cod" then [10] else if s = "ph" then [7]
  else if s = "tds" then [100] else []

/-- The second pollution-score example mapping of the claim:
bod 2, do 6, cod 10, ph 7.0, tds 100. -/
def exVals2 : String → List ℚ := fun s =>
  if s = "bod" then [2] else if s = "do" then [6]
  else if s = "cod" then [10] else if s = "ph" then [7]
  else if s = "tds" then [100] else []

/-! Helper lemmas about folded minima, maxima, means and rounding. -/

theorem foldl_min_le_init (l : List ℚ) (q : ℚ) : l.foldl min q ≤ q := by
  induction l generalizing q with
  | nil => simp
  | cons a l ih =>
    simpa using le_trans (ih (min q a)) (min_le_left q a)

theorem foldl_min_le_mem (l : List ℚ) (q x : ℚ) (hx : x ∈ l) :
    l.foldl min q ≤ x := by
  induction l generalizing q with
  | nil => cases hx
  | cons a l ih =>
    rcases List.mem_cons.mp hx with h | h
    · subst h
      simpa using le_trans (foldl_min_le_init l (min q x)) (min_le_right q x)
    · simpa using ih (min q a) h

theorem le_foldl_max_init (l : List ℚ) (q : ℚ) : q ≤ l.foldl max q := by
  induction l generalizing q with
  | nil => simp
  | cons a l ih =>
    simpa using le_trans (le_max_left q a) (ih (max q a))

theorem mem_le_foldl_max (l : List ℚ) (q x : ℚ) (hx : x ∈ l) :
    x ≤ l.foldl max q := by
  induction l generalizing q with
  | nil => cases hx
  | cons a l ih =>
    rcases List.mem_cons.mp hx with h | h
    · subst h
      simpa using le_trans (le_max_right q x) (le_foldl_max_init l (max q x))
    · simpa using ih (max q a) h

theorem foldl_min_mul_le_sum (l : List ℚ) (q : ℚ) :
    l.foldl min q * (1 + l.length) ≤ q + l.sum := by
  induction l generalizing q with
  | nil => simp
  | cons a l ih =>
    have h1 := ih (min q a)
    have h2 : l.foldl min (min q a) ≤ min q a := foldl_min_le_init l (min q a)
    have h3 : min q a ≤ q := min_le_left q a
    have h4 : min q a ≤ a := min_le_right q a
    simp only [List.foldl_cons, List.sum_cons, List.length_cons]
    push_cast
    push_cast at h1
    nlinarith [h1, h2, h3, h4]

theorem sum_le_foldl_max_mul (l : List ℚ) (q : ℚ) :
    q + l.sum ≤ l.foldl max q * (1 + l.length) := by
  induction l generalizing q with
  | nil => simp
  | cons a l ih =>
    have h1 := ih (max q a)
    have h2 : max q a ≤ l.foldl max (max q a) := le_foldl_max_init l (max q a)
    have h3 : q ≤ max q a := le_max_left q a
    have h4 : a ≤ max q a := le_max_right q a
    simp only [List.foldl_cons, List.sum_cons, List.length_cons]
    push_cast
    push_cast at h1
    nlinarith [h1, h2, h3, h4]

theorem listMin_le_listMean (l : List ℚ) (h : l ≠ []) :
    listMin l ≤ listMean l := by
  rcases l with _ | ⟨q, qs⟩
  · exact absurd rfl h
  · have hb := foldl_min_mul_le_sum qs q
    rw [listMin, listMean, List.sum_cons, List.length_cons]
    push_cast
    rw [le_div_iff₀ (by positivity)]
    nlinarith [hb]

theorem listMean_le_listMax (l : List ℚ) (h : l ≠ []) :
    listMean l ≤ listMax l := by
  rcases l with _ | ⟨q, qs⟩
  · exact absurd rfl h
  · have hb := sum_le_foldl_max_mul qs q
    rw [listMean, listMax, List.sum_cons, List.length_cons]
    push_cast
    rw [div_le_iff₀ (by positivity)]
    nlinarith [hb]

theorem rne_ge_floor (q : ℚ) : ⌊q⌋ ≤ rne q := by
  simp only [rne]
  split_ifs <;> omega

theorem rne_le_floor_add_one (q : ℚ) : rne q ≤ ⌊q⌋ + 1 := by
  simp only [rne]
  split_ifs <;> omega

theorem rne_mono {a b : ℚ} (h : a ≤ b) : rne a ≤ rne b := by
  rcases eq_or_lt_of_le (Int.floor_mono h) with hf | hf
  · simp only [rne]
    rw [← hf]
    split_ifs <;> first | omega | linarith
  · calc rne a ≤ ⌊a⌋ + 1 := rne_le_floor_add_one a
    _ ≤ ⌊b⌋ := by omega
    _ ≤ rne b := rne_ge_floor b

theorem round3_mono {a b : ℚ} (h : a ≤ b) : round3 a ≤ round3 b := by
  unfold round3
  have : rne (a * 1000) ≤ rne (b * 1000) := rne_mono (by linarith)
  have hc : ((rne (a * 1000) : ℤ) : ℚ) ≤ ((rne (b * 1000) : ℤ) : ℚ) := by
    exact_mod_cast this
  linarith

/-! Helper lemmas about forward and backward filling. -/

theorem length_ffillGo (l : List (Option ℚ)) (c : Option ℚ) :
    (ffillGo c l).length = l.length := by
  induction l generalizing c with
  | nil => rfl
  | cons a l ih =>
    cases a <;> simp [ffillGo, ih]

theorem ffillGo_some_all_isSome (l : List (Option ℚ)) (q : ℚ) :
    (ffillGo (some q) l).all Option.isSome = true := by
  induction l generalizing q with
  | nil => rfl
  | cons a l ih =>
    cases a <;> simp [ffillGo, Option.isSome, ih]

theorem getLast?_isSome_of_all (m : List (Option ℚ))
    (h : m.all Option.isSome = true) (hne : m ≠ []) :
    ∃ q, m.getLast? = some (some q) := by
  induction m with
  | nil => exact absurd rfl hne
  | cons a m ih =>
    rcases m with _ | ⟨b, m'⟩
    · simp only [List.all_cons, Bool.and_eq_true] at h
      rcases a with _ | q
      · simp [Option.isSome] at h
      · exact ⟨q, rfl⟩
    · simp only [List.all_cons, Bool.and_eq_true] at h
      rcases ih (by simp [h.2.1, h.2.2]) (by simp) with ⟨q, hq⟩
      exact ⟨q, by rw [List.getLast?_cons_cons]; exact hq⟩

theorem ffillGo_getLast_isSome (l : List (Option ℚ)) (c : Option ℚ)
    (h : l.any Option.isSome = true) :
    ∃ q, (ffillGo c l).getLast? = some (some q) := by
  induction l generalizing c with
  | nil => simp at h
  | cons a l ih =>
    rcases a with _ | q
    · simp only [List.any_cons, Option.isSome, Bool.false_or] at h
      rcases ih c h with ⟨q, hq⟩
      have hne : l ≠ [] := by
        rcases List.any_eq_true.mp h with ⟨x, hx, _⟩
        intro hl; subst hl; cases hx
      have hlen : ffillGo c l ≠ [] := by
        intro he
        have := length_ffillGo l c
        rw [he] at this
        exact hne (List.length_eq_zero.mp this.symm)
      refine ⟨q, ?_⟩
      show (ffillGo c (none :: l)).getLast? = some (some q)
      rcases hfl : ffillGo c l with _ | ⟨b, m⟩
      · exact absurd hfl hlen
      · simp only [ffillGo, hfl, List.getLast?_cons_cons]
        rw [hfl] at hq
        exact hq
    · have hall : (ffillGo c (some q :: l)).all Option.isSome = true := by
        simp [ffillGo, Option.isSome, ffillGo_some_all_isSome]
      exact getLast?_isSome_of_all _ hall (by simp [ffillGo])

theorem fill_all_isSome (l : List (Option ℚ))
    (h : l.any Option.isSome = true) :
    (bfill (ffill l)).all Option.isSome = true := by
  rcases ffillGo_getLast_isSome l none h with ⟨q, hq⟩
  have hrev : (ffill l).reverse.head? = some (some q) := by
    rw [List.head?_reverse]; exact hq
  rcases hrl : (ffill l).reverse with _ | ⟨b, m⟩
  · rw [hrl] at hrev; cases hrev
  · rw [hrl] at hrev
    have hb : b = some q := by
      simpa using hrev
    subst hb
    show ((ffillGo none ((ffill l).reverse)).reverse.all Option.isSome) = true
    rw [hrl]
    have : (ffillGo none (some q :: m)).all Option.isSome = true := by
      simp [ffillGo, Option.isSome, ffillGo_some_all_isSome]
    rw [List.all_eq_true] at this ⊢
    intro x hx
    exact this x (List.mem_reverse.mp hx)

theorem ffillGo_none_of_allNone (l : List (Option ℚ))
    (h : l.all Option.isNone = true) : ffillGo none l = l := by
  induction l with
  | nil => rfl
  | cons a l ih =>
    simp only [List.all_cons, Bool.and_eq_true] at h
    rcases a with _ | q
    · simp [ffillGo, ih h.2]
    · simp [Option.isNone] at h

theorem fill_of_allNone (l : List (Option ℚ))
    (h : l.all Option.isNone = true) : bfill (ffill l) = l := by
  have h1 : ffill l = l := ffillGo_none_of_allNone l h
  have h2 : l.reverse.all Option.isNone = true := by
    rw [List.all_eq_true] at h ⊢
    intro x hx
    exact h x (List.mem_reverse.mp hx)
  rw [bfill, h1, ffillGo_none_of_allNone _ h2, List.reverse_reverse]

theorem filterMap_id_eq_nil_of_allNone (l : List (Option ℚ))
    (h : l.all Option.isNone = true) : l.filterMap id = [] := by
  induction l with
  | nil => rfl
  | cons a l ih =>
    simp only [List.all_cons, Bool.and_eq_true] at h
    rcases a with _ | q
    · simpa [List.filterMap_cons] using ih h.2
    · simp [Option.isNone] at h

theorem length_filterMap_id_of_all (m : List (Option ℚ))
    (h : m.all Option.isSome = true) : (m.filterMap id).length = m.length := by
  induction m with
  | nil => rfl
  | cons a m ih =>
    simp only [List.all_cons, Bool.and_eq_true] at h
    rcases a with _ | q
    · simp [Option.isSome] at h
    · simpa [List.filterMap_cons] using ih h.2

theorem filled_filterMap_ne_nil (l : List (Option ℚ))
    (h : l.any Option.isSome = true) :
    (bfill (ffill l)).filterMap id ≠ [] := by
  have hall := fill_all_isSome l h
  have hne : l ≠ [] := by
    rcases List.any_eq_true.mp h with ⟨x, hx, _⟩
    intro hl; subst hl; cases hx
  have hlen : (bfill (ffill l)).length = l.length := by
    rw [bfill, ffill, List.length_reverse, length_ffillGo, List.length_reverse,
      length_ffillGo]
  intro hnil
  have := length_filterMap_id_of_all _ hall
  rw [hnil] at this
  simp only [List.length_nil] at this
  rw [hlen] at this
  exact hne (List.length_eq_zero.mp this.symm)

/-! Helper lemmas about the Python dict model used by the resolver. -/

theorem dictInsert_mem (d : List (String × String)) (k v : String)
    (p : String × String) (hp : p ∈ dictInsert k v d) :
    p = (k, v) ∨ p ∈ d := by
  induction d with
  | nil => simpa [dictInsert] using hp
  | cons q rest ih =>
    by_cases hq : q.1 == k
    · simp only [dictInsert, hq, if_pos] at hp
      rcases List.mem_cons.mp hp with h | h
      · exact Or.inl h
      · exact Or.inr (List.mem_cons_of_mem q h)
    · simp only [dictInsert, hq, if_neg, Bool.false_eq_true,
        not_false_eq_true] at hp
      rcases List.mem_cons.mp hp with h | h
      · exact Or.inr (by rw [h]; exact List.mem_cons_self q rest)
      · rcases ih h with h1 | h1
        · exact Or.inl h1
        · exact Or.inr (List.mem_cons_of_mem q h1)

theorem pyDict_mem_aux (pairs : List (String × String))
    (acc : List (String × String)) (p : String × String)
    (hp : p ∈ pairs.foldl (fun d x => dictInsert x.1 x.2 d) acc) :
    p ∈ acc ∨ p ∈ pairs := by
  induction pairs generalizing acc with
  | nil => exact Or.inl hp
  | cons x rest ih =>
    simp only [List.foldl_cons] at hp
    rcases ih (dictInsert x.1 x.2 acc) hp with h | h
    · rcases dictInsert_mem acc x.1 x.2 p h with h1 | h1
      · exact Or.inr (by rw [h1]; exact List.mem_cons_self x rest)
      · exact Or.inl h1
    · exact Or.inr (List.mem_cons_of_mem x h)

theorem pyDict_mem (pairs : List (String × String)) (p : String × String)
    (hp : p ∈ pyDict pairs) : p ∈ pairs := by
  rcases pyDict_mem_aux pairs [] p hp with h | h
  · cases h
  · exact h

theorem dictInsert_key_self (d : List (String × String)) (k v : String) :
    ∃ w, (k, w) ∈ dictInsert k v d := by
  induction d with
  | nil => exact ⟨v, by simp [dictInsert]⟩
  | cons q rest ih =>
    by_cases hq : q.1 == k
    · exact ⟨v, by simp [dictInsert, hq]⟩
    · rcases ih with ⟨w, hw⟩
      exact ⟨w, by simp only [dictInsert, hq, Bool.false_eq_true, if_neg,
        not_false_eq_true]; exact List.mem_cons_of_mem q hw⟩

theorem dictInsert_key_mono (d : List (String × String)) (k v k' w : String)
    (h : (k', w) ∈ d) : ∃ w', (k', w') ∈ dictInsert k v d := by
  induction d with
  | nil => cases h
  | cons q rest ih =>
    rcases List.mem_cons.mp h with h1 | h1
    · subst h1
      by_cases hq : k' = k
      · subst hq
        refine ⟨v, ?_⟩
        simp [dictInsert]
      · refine ⟨w, ?_⟩
        have hq2 : ((k', w).1 == k) = false := by simpa using hq
        simp [dictInsert, hq2]
    · by_cases hq : q.1 == k
      · refine ⟨w, ?_⟩
        simp only [dictInsert, hq, if_pos]
        exact List.mem_cons_of_mem _ h1
      · rcases ih h1 with ⟨w', hw'⟩
        refine ⟨w', ?_⟩
        simp only [dictInsert, hq, Bool.false_eq_true, if_false]
        exact List.mem_cons_of_mem q hw'

theorem pyDict_key_complete_aux (pairs : List (String × String))
    (acc : List (String × String)) (k : String)
    (h : (∃ w, (k, w) ∈ acc) ∨ (∃ w, (k, w) ∈ pairs)) :
    ∃ w, (k, w) ∈ pairs.foldl (fun d x => dictInsert x.1 x.2 d) acc := by
  induction pairs generalizing acc with
  | nil =>
    rcases h with h | ⟨w, hw⟩
    · exact h
    · cases hw
  | cons x rest ih =>
    simp only [List.foldl_cons]
    apply ih
    rcases h with ⟨w, hw⟩ | ⟨w, hw⟩
    · exact Or.inl (dictInsert_key_mono acc x.1 x.2 k w hw)
    · rcases List.mem_cons.mp hw with h1 | h1
      · have hk : x.1 = k := by rw [← h1]
        rw [← hk]
        exact Or.inl (dictInsert_key_self acc x.1 x.2)
      · exact Or.inr ⟨w, h1⟩

theorem pyDict_key_complete (pairs : List (String × String)) (k w : String)
    (h : (k, w) ∈ pairs) : ∃ w', (k, w') ∈ pyDict pairs :=
  pyDict_key_complete_aux pairs [] k (Or.inr ⟨w, h⟩)

/-! Helper lemmas about the column resolver. -/

theorem strat2_none_iff (cols : List String) (key : String) :
    ((matchKeywords key).findSome? (fun kw =>
      (pyDict (cols.map (fun c => (c.toLower, c)))).findSome? (fun p =>
        if strContains p.1 kw then some p.2 else none)) = none) ↔
    ∀ c ∈ cols, keywordHit key c = false := by
  rw [List.findSome?_eq_none_iff]
  constructor
  · intro h c hc
    rw [keywordHit, List.any_eq_false]
    intro kw hkw
    intro hcon
    have hmem : (c.toLower, c) ∈ cols.map (fun c => (c.toLower, c)) :=
      List.mem_map.mpr ⟨c, hc, rfl⟩
    rcases pyDict_key_complete _ _ _ hmem with ⟨v, hv⟩
    have := List.findSome?_eq_none_iff.mp (h kw hkw) _ hv
    rw [if_pos hcon] at this
    cases this
  · intro h kw hkw
    rw [List.findSome?_eq_none_iff]
    intro p hp
    have hpp := pyDict_mem _ _ hp
    rcases List.mem_map.mp hpp with ⟨c, hc, hcp⟩
    have hkh := h c hc
    rw [keywordHit, List.any_eq_false] at hkh
    have := hkh kw hkw
    rw [← hcp]
    exact if_neg this

theorem strat2_some_mem (cols : List String) (key c : String)
    (h : (matchKeywords key).findSome? (fun kw =>
      (pyDict (cols.map (fun x => (x.toLower, x)))).findSome? (fun p =>
        if strContains p.1 kw then some p.2 else none)) = some c) :
    c ∈ cols ∧ keywordHit key c = true := by
  rcases List.exists_of_findSome?_eq_some h with ⟨kw, hkw, hinner⟩
  rcases List.exists_of_findSome?_eq_some hinner with ⟨p, hp, hif⟩
  have hpp := pyDict_mem _ _ hp
  rcases List.mem_map.mp hpp with ⟨c', hc', hcp⟩
  by_cases hcon : strContains p.1 kw
  · rw [if_pos hcon] at hif
    have hc : p.2 = c := by simpa using hif
    have hc'2 : c' = c := by rw [← hc, ← hcp]
    subst hc'2
    refine ⟨hc', ?_⟩
    rw [keywordHit, List.any_eq_true]
    refine ⟨kw, hkw, ?_⟩
    have : p.1 = c'.toLower := by rw [← hcp]
    rw [this] at hcon
    exact hcon
  · rw [if_neg hcon] at hif
    cases hif

theorem match_none_iff (cols : List String) (key : String) :
    match_parameter_column cols key = none ↔
    ∀ c ∈ cols, strategy1Hit key c = false ∧ keywordHit key c = false := by
  rw [match_parameter_column]
  rcases hf : cols.find? (strategy1Hit key) with _ | c
  · simp only []
    rw [strat2_none_iff]
    constructor
    · intro h c hc
      refine ⟨?_, h c hc⟩
      have := List.find?_eq_none.mp hf c hc
      simpa using this
    · intro h c hc
      exact (h c hc).2
  · simp only []
    constructor
    · intro h; cases h
    · intro h
      have hmem := List.mem_of_find?_eq_some hf
      have hhit := List.find?_some hf
      rw [(h c hmem).1] at hhit
      cases hhit

theorem match_some_mem (cols : List String) (key c : String)
    (h : match_parameter_column cols key = some c) : c ∈ cols := by
  rw [match_parameter_column] at h
  rcases hf : cols.find? (strategy1Hit key) with _ | c'
  · rw [hf] at h
    simp only [] at h
    exact (strat2_some_mem cols key c h).1
  · rw [hf] at h
    simp only [Option.some.injEq] at h
    subst h
    exact List.mem_of_find?_eq_some hf

/-! Helper lemmas about the decimal parser. -/

theorem digit_bne_dot {c : Char} (h : c.isDigit = true) : (c != '.') = true := by
  by_cases hc : c = '.'
  · subst hc
    exact absurd h (by decide)
  · simpa using hc

theorem takeWhile_of_all {p : Char → Bool} (l : List Char)
    (h : ∀ c ∈ l, p c = true) : l.takeWhile p = l ∧ l.dropWhile p = [] := by
  induction l with
  | nil => exact ⟨rfl, rfl⟩
  | cons a l ih =>
    have ha := h a (List.mem_cons_self _ _)
    have hl := ih (fun c hc => h c (List.mem_cons_of_mem a hc))
    constructor
    · rw [List.takeWhile_cons, ha]
      simp [hl.1]
    · rw [List.dropWhile_cons, ha]
      simp [hl.2]

theorem takeWhile_middle {p : Char → Bool} (l1 l2 : List Char) (x : Char)
    (h1 : ∀ c ∈ l1, p c = true) (hx : p x = false) :
    (l1 ++ x :: l2).takeWhile p = l1 ∧ (l1 ++ x :: l2).dropWhile p = x :: l2 := by
  induction l1 with
  | nil =>
    constructor
    · rw [List.nil_append, List.takeWhile_cons, hx]
      simp
    · rw [List.nil_append, List.dropWhile_cons, hx]
      simp
  | cons a l ih =>
    have ha := h1 a (List.mem_cons_self _ _)
    have hl := ih (fun c hc => h1 c (List.mem_cons_of_mem a hc))
    constructor
    · rw [List.cons_append, List.takeWhile_cons, ha]
      simp [hl.1]
    · rw [List.cons_append, List.dropWhile_cons, ha]
      simp [hl.2]

theorem dot_not_mem_digits (l : List Char) (h : ∀ c ∈ l, c.isDigit = true) :
    ('.' : Char) ∉ l := by
  intro hm
  exact absurd (h _ hm) (by decide)

theorem parseUnsigned_eq (cs : List Char) :
    parseUnsigned cs = if unsignedOk cs then some (unsignedVal cs) else none := by
  have hip : ∀ c ∈ cs.takeWhile Char.isDigit, c.isDigit = true := fun c hc =>
    List.mem_takeWhile_imp hc
  rcases hdw : cs.dropWhile Char.isDigit with _ | ⟨r, frac⟩
  · have hcs : cs.takeWhile Char.isDigit = cs := by
      have := List.takeWhile_append_dropWhile Char.isDigit cs
      rw [hdw, List.append_nil] at this
      exact this
    have hdig : ∀ c ∈ cs, c.isDigit = true := by
      intro c hc
      rw [← hcs] at hc
      exact hip c hc
    simp only [parseUnsigned, hdw, hcs]
    rcases cs with _ | ⟨d, cs'⟩
    · simp [unsignedOk]
    · have hd : d.isDigit = true := hdig d (List.mem_cons_self _ _)
      have hok : unsignedOk (d :: cs') = true := by
        rw [unsignedOk]
        have h1 : (d :: cs').any Char.isDigit = true :=
          List.any_eq_true.mpr ⟨d, List.mem_cons_self _ _, hd⟩
        have h2 : (d :: cs').all (fun c => c.isDigit || c == '.') = true :=
          List.all_eq_true.mpr (fun c hc => by rw [hdig c hc]; rfl)
        have h3 : (d :: cs').count '.' = 0 :=
          List.count_eq_zero.mpr (dot_not_mem_digits _ hdig)
        rw [h1, h2, h3]
        rfl
      have htd := takeWhile_of_all (p := fun c => c != '.') (d :: cs')
        (fun c hc => digit_bne_dot (hdig c hc))
      have hval : unsignedVal (d :: cs') = (digitsVal (d :: cs') : ℚ) := by
        rw [unsignedVal]
        simp only [htd.1, htd.2]
        norm_num [digitsVal]
      rw [hok, hval]
      simp
  · have hsplit : cs.takeWhile Char.isDigit ++ r :: frac = cs := by
      have := List.takeWhile_append_dropWhile Char.isDigit cs
      rw [hdw] at this
      exact this
    have hr : r.isDigit = false := by
      have h := List.head?_dropWhile_not Char.isDigit cs
      rw [hdw] at h
      simpa using h
    simp only [parseUnsigned, hdw]
    by_cases hrdot : r = '.'
    · subst hrdot
      simp only [beq_self_eq_true, Bool.true_and]
      by_cases hfd : frac.all Char.isDigit
      · simp only [hfd, Bool.true_and]
        have hfdig : ∀ c ∈ frac, c.isDigit = true := List.all_eq_true.mp hfd
        have hmid := takeWhile_middle (p := fun c => c != '.')
          (cs.takeWhile Char.isDigit) frac '.'
          (fun c hc => digit_bne_dot (hip c hc)) (by decide)
        rw [hsplit] at hmid
        have hcip : (cs.takeWhile Char.isDigit).count '.' = 0 :=
          List.count_eq_zero.mpr (dot_not_mem_digits _ hip)
        have hcfr : frac.count '.' = 0 :=
          List.count_eq_zero.mpr (dot_not_mem_digits _ hfdig)
        have hcnt : cs.count '.' = 1 := by
          rw [← hsplit, List.count_append, List.count_cons, hcip, hcfr]
          simp
        have hall : cs.all (fun c => c.isDigit || c == '.') = true := by
          rw [List.all_eq_true]
          intro c hc
          rw [← hsplit] at hc
          rcases List.mem_append.mp hc with h1 | h1
          · rw [hip c h1]; rfl
          · rcases List.mem_cons.mp h1 with h2 | h2
            · subst h2; decide
            · rw [hfdig c h2]; rfl
        have hval : unsignedVal cs =
            (digitsVal (cs.takeWhile Char.isDigit) : ℚ) +
              (digitsVal frac : ℚ) / 10 ^ frac.length := by
          rw [unsignedVal]
          simp only [hmid.1, hmid.2, List.drop_succ_cons, List.drop_zero]
        rcases he : cs.takeWhile Char.isDigit with _ | ⟨d, ds⟩
        · rcases hf : frac with _ | ⟨e, es⟩
          · have hcsdot : cs = ['.'] := by
              rw [← hsplit, he, hf]
              rfl
            have hok : unsignedOk cs = false := by
              rw [hcsdot]
              decide
            rw [hok]
            simp
          · have hd : e ∈ cs := by
              rw [← hsplit, hf]
              exact List.mem_append_right _
                (List.mem_cons_of_mem _ (List.mem_cons_self _ _))
            have hany : cs.any Char.isDigit = true := by
              refine List.any_eq_true.mpr ⟨e, hd, ?_⟩
              apply hfdig
              rw [hf]
              exact List.mem_cons_self _ _
            have hok : unsignedOk cs = true := by
              rw [unsignedOk, hany, hall, hcnt]
              rfl
            simp [hok, hval, he, hf]
        · have hd : d ∈ cs := by
            rw [← hsplit, he]
            exact List.mem_append_left _ (List.mem_cons_self _ _)
          have hany : cs.any Char.isDigit = true := by
            refine List.any_eq_true.mpr ⟨d, hd, ?_⟩
            apply hip
            rw [he]
            exact List.mem_cons_self _ _
          have hok : unsignedOk cs = true := by
            rw [unsignedOk, hany, hall, hcnt]
            rfl
          rw [hok, ← he]
          simp [hval, he]
      · have hfd2 : frac.all Char.isDigit = false := by
          rcases hb : frac.all Char.isDigit with _ | _
          · rfl
          · exact absurd hb hfd
        rw [hfd2]
        simp only [Bool.false_and, Bool.and_false, if_false]
        rcases List.all_eq_false.mp hfd2 with ⟨c0, hc0, hc0d⟩
        have hc0dig : c0.isDigit = false := by
          rcases hb : c0.isDigit with _ | _
          · rfl
          · exact absurd hb hc0d
        by_cases hc0dot : c0 = '.'
        · have hcip : (cs.takeWhile Char.isDigit).count '.' = 0 :=
            List.count_eq_zero.mpr (dot_not_mem_digits _ hip)
          have hfpos : frac.count '.' ≠ 0 := by
            rw [Ne, List.count_eq_zero]
            intro hnm
            rw [← hc0dot] at hnm
            exact hnm hc0
          have hcnt : ¬(cs.count '.' ≤ 1) := by
            rw [← hsplit, List.count_append, List.count_cons, hcip]
            simp only [beq_self_eq_true, if_pos]
            omega
          have hok : unsignedOk cs = false := by
            rw [unsignedOk]
            have : decide (cs.count '.' ≤ 1) = false :=
              decide_eq_false hcnt
            rw [this, Bool.and_false]
          rw [hok]
          simp
        · have hmem : c0 ∈ cs := by
            rw [← hsplit]
            exact List.mem_append_right _ (List.mem_cons_of_mem _ hc0)
          have hok : unsignedOk cs = false := by
            rw [unsignedOk]
            have hall : cs.all (fun c => c.isDigit || c == '.') = false := by
              refine List.all_eq_false.mpr ⟨c0, hmem, ?_⟩
              simp [hc0dig, hc0dot]
            rw [hall, Bool.and_false, Bool.false_and]
          rw [hok]
          simp
    · have hr2 : (r == '.') = false := by
        simpa using hrdot
      rw [hr2]
      simp only [Bool.false_and, if_false]
      have hmem : r ∈ cs := by
        rw [← hsplit]
        exact List.mem_append_right _ (List.mem_cons_self _ _)
      have hok : unsignedOk cs = false := by
        rw [unsignedOk]
        have hall : cs.all (fun c => c.isDigit || c == '.') = false := by
          refine List.all_eq_false.mpr ⟨r, hmem, ?_⟩
          simp [hr, hrdot]
        rw [hall, Bool.and_false, Bool.false_and]
      rw [hok]
      simp

theorem parseSigned_eq (cs : List Char) (hplus : ('+' : Char) ∉ cs) :
    parseSigned cs =
      if plainNumeral cs then some (numeralValue cs) else none := by
  rcases cs with _ | ⟨c, rest⟩
  · rw [parseSigned, parseUnsigned_eq, plainNumeral, numeralCore]
    simp [unsignedOk]
  · by_cases hc : c = '-'
    · subst hc
      rw [parseSigned]
      simp only [beq_self_eq_true, if_pos]
      rw [parseUnsigned_eq, plainNumeral, numeralCore, numeralValue]
      simp only [List.head?_cons, beq_self_eq_true, List.tail_cons, if_pos]
      rcases hok : unsignedOk rest with _ | _
      · simp
      · simp [numeralCore]
    · have hc2 : (c == '-') = false := by simpa using hc
      have hc3 : (c == '+') = false := by
        have : c ≠ '+' := fun hcc => hplus (by rw [← hcc]; exact List.mem_cons_self _ _)
        simpa using this
      rw [parseSigned]
      rw [hc2, hc3]
      simp only [Bool.false_eq_true, if_false]
      rw [parseUnsigned_eq, plainNumeral, numeralCore, numeralValue]
      have hh : ((c :: rest).head? == some '-') = false := by
        rw [List.head?_cons]
        simpa using hc
      rw [hh]
      simp [numeralCore, hh, hc]

theorem dropWhile_of_all_false {p : Char → Bool} (l : List Char)
    (h : ∀ c ∈ l, p c = false) : l.dropWhile p = l := by
  rcases l with _ | ⟨a, l⟩
  · rfl
  · rw [List.dropWhile_cons, h a (List.mem_cons_self _ _)]
    simp

theorem charTrim_of_no_ws (cs : List Char)
    (h : ∀ c ∈ cs, c.isWhitespace = false) : charTrim cs = cs := by
  rw [charTrim, dropWhile_of_all_false cs h, dropWhile_of_all_false, List.reverse_reverse]
  intro c hc
  exact h c (List.mem_reverse.mp hc)

theorem kept_not_ws {c : Char} (h : keptChar c = true) :
    c.isWhitespace = false := by
  rcases hb : c.isWhitespace with _ | _
  · rfl
  · exfalso
    have hw : ((c = ' ' ∨ c = '\t') ∨ c = '\r') ∨ c = '\n' := by
      have := hb
      simp only [Char.isWhitespace] at this
      simpa using this
    rcases hw with ((hw | hw) | hw) | hw <;> rw [hw] at h <;>
      exact absurd h (by decide)

theorem kept_not_plus {c : Char} (h : keptChar c = true) : c ≠ '+' := by
  intro hc
  rw [hc] at h
  exact absurd h (by decide)

theorem pdStrip_data (s : String) : (pdStrip s).data = s.data.filter keptChar := rfl

theorem pdStrip_kept (s : String) : ∀ c ∈ (pdStrip s).data, keptChar c = true := by
  intro c hc
  rw [pdStrip_data] at hc
  exact List.of_mem_filter hc

theorem coerce_cell_eq (s : String) :
    coerce_cell s =
      if plainNumeral (pdStrip s).data then
        some (numeralValue (pdStrip s).data)
      else none := by
  rw [coerce_cell, pyParseNumber]
  rw [charTrim_of_no_ws _ (fun c hc => kept_not_ws (pdStrip_kept s c hc))]
  exact parseSigned_eq _ (fun hm => kept_not_plus (pdStrip_kept s _ hm) rfl)

/-! Helper lemmas about the evaluation loop. -/

theorem except_bind_ok {α β : Type} (a : α) (f : α → Except Err β) :
    (Except.ok a : Except Err α) >>= f = f a := rfl

theorem except_bind_error {α β : Type} (e : Err) (f : α → Except Err β) :
    (Except.error e : Except Err α) >>= f = Except.error e := rfl

theorem not_allNone_iff_any (m : List (Option ℚ)) :
    m.all Option.isNone = false ↔ m.any Option.isSome = true := by
  constructor
  · intro h
    rcases List.all_eq_false.mp h with ⟨x, hx, hni⟩
    refine List.any_eq_true.mpr ⟨x, hx, ?_⟩
    rcases x with _ | q
    · simp at hni
    · rfl
  · intro h
    rcases List.any_eq_true.mp h with ⟨x, hx, hs⟩
    refine List.all_eq_false.mpr ⟨x, hx, ?_⟩
    rcases x with _ | q
    · simp at hs
    · simp

theorem processKey_of_match_none (t : RawTable) (st : LoopState) (key : String)
    (cfg : ParamConfig) (h : match_parameter_column t.headers key = none) :
    processKey t st key cfg = Except.ok st := by
  simp only [processKey, h]

theorem processKey_of_dup (t : RawTable) (st : LoopState) (key : String)
    (cfg : ParamConfig) (c : String)
    (h : match_parameter_column t.headers key = some c)
    (hd : labelCount t c ≠ 1) :
    processKey t st key cfg = Except.error Err.typeError := by
  simp only [processKey, h, if_pos hd]

theorem processKey_of_allNone (t : RawTable) (st : LoopState) (key : String)
    (cfg : ParamConfig) (c : String)
    (h : match_parameter_column t.headers key = some c)
    (hu : labelCount t c = 1)
    (hn : ((columnCells t c).map cellToNumeric).all Option.isNone = true) :
    processKey t st key cfg = Except.ok st := by
  have hnd : ¬(labelCount t c ≠ 1) := fun hne => hne hu
  have hq : ((bfill (ffill ((columnCells t c).map cellToNumeric))).filterMap
      id) = [] := by
    rw [fill_of_allNone _ hn]
    exact filterMap_id_eq_nil_of_allNone _ hn
  simp only [processKey, h, if_neg hnd, hq]
  simp

theorem processKey_of_someVal (t : RawTable) (st : LoopState) (key : String)
    (cfg : ParamConfig) (c : String)
    (h : match_parameter_column t.headers key = some c)
    (hu : labelCount t c = 1)
    (hv : ((columnCells t c).map cellToNumeric).any Option.isSome = true) :
    ∃ st', processKey t st key cfg = Except.ok st' ∧
      st'.summaries.length = st.summaries.length + 1 ∧
      (∀ s ∈ st'.summaries, s ∈ st.summaries ∨ goodSummary s = true) ∧
      (∀ s ∈ st.summaries, s ∈ st'.summaries) ∧
      (st'.recommendations = st.recommendations ∨
        ∃ s ∈ st'.summaries, s.status ≠ "ok") := by
  have hnd : ¬(labelCount t c ≠ 1) := fun hne => hne hu
  have hqne := filled_filterMap_ne_nil ((columnCells t c).map cellToNumeric) hv
  have hqemp : ((bfill (ffill ((columnCells t c).map cellToNumeric))).filterMap
      id).isEmpty = false := by
    rcases hb : ((bfill (ffill ((columnCells t c).map
        cellToNumeric))).filterMap id).isEmpty with _ | _
    · rfl
    · exact absurd (List.isEmpty_iff.mp hb) hqne
  have hmin_le := listMin_le_listMean _ hqne
  have hmean_le := listMean_le_listMax _ hqne
  simp only [processKey, h, if_neg hnd, hqemp, Bool.false_eq_true, if_false]
  by_cases hst : evaluate_status cfg.tmin cfg.tmax
      (listMin ((bfill (ffill ((columnCells t c).map
        cellToNumeric))).filterMap id))
      (listMax ((bfill (ffill ((columnCells t c).map
        cellToNumeric))).filterMap id)) ≠ "ok"
  · simp only [if_pos hst]
    refine ⟨_, rfl, ?_, ?_, ?_, ?_⟩
    · simp
    · intro s hs
      rcases List.mem_append.mp hs with h1 | h1
      · exact Or.inl h1
      · refine Or.inr ?_
        have hseq := List.mem_singleton.mp h1
        subst hseq
        simp only [goodSummary, Bool.and_eq_true, decide_eq_true_eq]
        exact ⟨round3_mono hmin_le, round3_mono hmean_le⟩
    · intro s hs
      exact List.mem_append_left _ hs
    · refine Or.inr ⟨_, List.mem_append_right _ (List.mem_singleton.mpr rfl),
        ?_⟩
      simpa using hst
  · simp only [if_neg hst]
    refine ⟨_, rfl, ?_, ?_, ?_, ?_⟩
    · simp
    · intro s hs
      rcases List.mem_append.mp hs with h1 | h1
      · exact Or.inl h1
      · refine Or.inr ?_
        have hseq := List.mem_singleton.mp h1
        subst hseq
        simp only [goodSummary, Bool.and_eq_true, decide_eq_true_eq]
        exact ⟨round3_mono hmin_le, round3_mono hmean_le⟩
    · intro s hs
      exact List.mem_append_left _ hs
    · exact Or.inl rfl

theorem processKey_ok (t : RawTable) (st : LoopState) (key : String)
    (cfg : ParamConfig)
    (hu : ∀ c, match_parameter_column t.headers key = some c →
      labelCount t c = 1) :
    ∃ st', processKey t st key cfg = Except.ok st' ∧
      (∀ s ∈ st'.summaries, s ∈ st.summaries ∨ goodSummary s = true) ∧
      (∀ s ∈ st.summaries, s ∈ st'.summaries) ∧
      st.summaries.length ≤ st'.summaries.length ∧
      (st'.recommendations = st.recommendations ∨
        ∃ s ∈ st'.summaries, s.status ≠ "ok") ∧
      (∀ c, match_parameter_column t.headers key = some c →
        ((columnCells t c).map cellToNumeric).any Option.isSome = true →
        st.summaries.length < st'.summaries.length) := by
  rcases hm : match_parameter_column t.headers key with _ | c
  · refine ⟨st, processKey_of_match_none t st key cfg hm, ?_, ?_, le_refl _,
      Or.inl rfl, ?_⟩
    · exact fun s hs => Or.inl hs
    · exact fun s hs => hs
    · intro c hc
      cases hc
  · have hu1 := hu c hm
    rcases hall : ((columnCells t c).map cellToNumeric).all Option.isNone
      with _ | _
    · have hv := (not_allNone_iff_any _).mp hall
      rcases processKey_of_someVal t st key cfg c hm hu1 hv with
        ⟨st', heq, hlen, hgood, hmono, hrec⟩
      refine ⟨st', heq, hgood, hmono, by omega, hrec, ?_⟩
      intro c' hc' hv'
      omega
    · refine ⟨st, processKey_of_allNone t st key cfg c hm hu1 hall, ?_, ?_,
        le_refl _, Or.inl rfl, ?_⟩
      · exact fun s hs => Or.inl hs
      · exact fun s hs => hs
      · intro c' hc' hv'
        have hcc : c = c' := by simpa using hc'
        subst hcc
        rw [(not_allNone_iff_any _).mpr hv'] at hall
        cases hall

theorem foldlM_loop_props (t : RawTable) (ps : List (String × ParamConfig)) :
    ∀ st : LoopState,
    (∀ p ∈ ps, ∀ c, match_parameter_column t.headers p.1 = some c →
      labelCount t c = 1) →
    ∃ st', ps.foldlM (fun st p => processKey t st p.1 p.2) st =
        Except.ok st' ∧
      (∀ s ∈ st'.summaries, s ∈ st.summaries ∨ goodSummary s = true) ∧
      (∀ s ∈ st.summaries, s ∈ st'.summaries) ∧
      st.summaries.length ≤ st'.summaries.length ∧
      (st'.recommendations = st.recommendations ∨
        ∃ s ∈ st'.summaries, s.status ≠ "ok") ∧
      ((∃ p ∈ ps, ∃ c, match_parameter_column t.headers p.1 = some c ∧
          ((columnCells t c).map cellToNumeric).any Option.isSome = true) →
        st.summaries.length < st'.summaries.length) := by
  induction ps with
  | nil =>
    intro st _
    refine ⟨st, rfl, fun s hs => Or.inl hs, fun s hs => hs, le_refl _,
      Or.inl rfl, ?_⟩
    rintro ⟨p, hp, _⟩
    cases hp
  | cons p ps ih =>
    intro st hu
    rcases processKey_ok t st p.1 p.2 (hu p (List.mem_cons_self _ _)) with
      ⟨st1, heq1, hgood1, hmono1, hlen1, hrec1, hval1⟩
    rcases ih st1 (fun q hq => hu q (List.mem_cons_of_mem p hq)) with
      ⟨st2, heq2, hgood2, hmono2, hlen2, hrec2, hval2⟩
    refine ⟨st2, ?_, ?_, ?_, ?_, ?_, ?_⟩
    · rw [List.foldlM_cons, heq1, except_bind_ok, heq2]
    · intro s hs
      rcases hgood2 s hs with h1 | h1
      · rcases hgood1 s h1 with h2 | h2
        · exact Or.inl h2
        · exact Or.inr h2
      · exact Or.inr h1
    · exact fun s hs => hmono2 s (hmono1 s hs)
    · omega
    · rcases hrec2 with h2 | h2
      · rcases hrec1 with h1 | h1
        · exact Or.inl (h2.trans h1)
        · rcases h1 with ⟨s, hs, hsb⟩
          exact Or.inr ⟨s, hmono2 s hs, hsb⟩
      · exact Or.inr h2
    · rintro ⟨q, hq, c, hc, hcv⟩
      rcases List.mem_cons.mp hq with h1 | h1
      · subst h1
        have := hval1 c hc hcv
        omega
      · have := hval2 ⟨q, h1, c, hc, hcv⟩
        omega

theorem foldlM_loop_dup (t : RawTable) (ps : List (String × ParamConfig)) :
    ∀ st : LoopState,
    (∃ p ∈ ps, ∃ c, match_parameter_column t.headers p.1 = some c ∧
      labelCount t c ≠ 1) →
    ps.foldlM (fun st p => processKey t st p.1 p.2) st =
      Except.error Err.typeError := by
  induction ps with
  | nil =>
    rintro st ⟨p, hp, _⟩
    cases hp
  | cons p ps ih =>
    rintro st ⟨q, hq, c, hc, hd⟩
    rcases List.mem_cons.mp hq with h1 | h1
    · subst h1
      rw [List.foldlM_cons, processKey_of_dup t st q.1 q.2 c hc hd,
        except_bind_error]
    · by_cases hpd : ∃ c', match_parameter_column t.headers p.1 = some c' ∧
        labelCount t c' ≠ 1
      · rcases hpd with ⟨c', hc', hd'⟩
        rw [List.foldlM_cons, processKey_of_dup t st p.1 p.2 c' hc' hd',
          except_bind_error]
      · push_neg at hpd
        rcases processKey_ok t st p.1 p.2 hpd with ⟨st1, heq1, -, -, -, -, -⟩
        rw [List.foldlM_cons, heq1, except_bind_ok]
        exact ih st1 ⟨q, h1, c, hc, hd⟩

theorem foldlM_loop_none (t : RawTable) (ps : List (String × ParamConfig)) :
    ∀ st : LoopState,
    (∀ p ∈ ps, match_parameter_column t.headers p.1 = none) →
    ps.foldlM (fun st p => processKey t st p.1 p.2) st = Except.ok st := by
  induction ps with
  | nil => intro st _; rfl
  | cons p ps ih =>
    intro st h
    rw [List.foldlM_cons,
      processKey_of_match_none t st p.1 p.2 (h p (List.mem_cons_self _ _)),
      except_bind_ok]
    exact ih st (fun q hq => h q (List.mem_cons_of_mem p hq))

/-! Helper lemmas about time alignment and report assembly. -/

theorem timeStep_eq (t : RawTable)
    (h : ∀ c, findTimeColumn t.headers = some c → labelCount t c = 1) :
    timeStep t = Except.ok (timeAligned t) := by
  rcases hf : findTimeColumn t.headers with _ | c
  · simp only [timeStep, timeAligned, hf]
  · have h1 := h c hf
    have hnd : ¬(labelCount t c ≠ 1) := fun hne => hne h1
    simp only [timeStep, timeAligned, hf, if_neg hnd]
    by_cases hb : ((columnCells t c).all fun x => !cellIsNum x) = true
    · rw [if_pos hb, if_pos hb]
    · rw [if_neg hb, if_neg hb]

theorem timeStep_rows (t t' : RawTable) (h : timeStep t = Except.ok t') :
    t'.rows = t.rows := by
  rcases hf : findTimeColumn t.headers with _ | c
  · simp only [timeStep, hf, Except.ok.injEq] at h
    rw [← h]
  · simp only [timeStep, hf] at h
    by_cases hd : labelCount t c ≠ 1
    · rw [if_pos hd] at h
      cases h
    · rw [if_neg hd] at h
      by_cases hb : ((columnCells t c).all fun x => !cellIsNum x) = true
      · rw [if_pos hb] at h
        simp only [Except.ok.injEq] at h
        rw [← h]
      · rw [if_neg hb] at h
        simp only [Except.ok.injEq] at h
        rw [← h]

theorem buildReport_eq_ok (t0 : RawTable) (t' : RawTable) (st : LoopState)
    (hne : ((prepare_dataframe t0).rows.isEmpty ||
      (prepare_dataframe t0).headers.isEmpty) = false)
    (ht : timeStep (prepare_dataframe t0) = Except.ok t')
    (hl : runLoop t' = Except.ok st)
    (hs : st.summaries.isEmpty = false) :
    buildReport t0 = Except.ok (assembleReport t' st) := by
  simp only [buildReport, hne, Bool.false_eq_true, if_false, ht, hl, hs]

theorem buildReport_eq_error_empty (t0 : RawTable)
    (hne : ((prepare_dataframe t0).rows.isEmpty ||
      (prepare_dataframe t0).headers.isEmpty) = true) :
    buildReport t0 = Except.error Err.emptyAfterCleaning := by
  simp only [buildReport, hne, if_true]

theorem buildReport_eq_error_loop (t0 : RawTable) (t' : RawTable) (e : Err)
    (hne : ((prepare_dataframe t0).rows.isEmpty ||
      (prepare_dataframe t0).headers.isEmpty) = false)
    (ht : timeStep (prepare_dataframe t0) = Except.ok t')
    (hl : runLoop t' = Except.error e) :
    buildReport t0 = Except.error e := by
  simp only [buildReport, hne, Bool.false_eq_true, if_false, ht, hl]

theorem buildReport_eq_error_noRec (t0 : RawTable) (t' : RawTable)
    (st : LoopState)
    (hne : ((prepare_dataframe t0).rows.isEmpty ||
      (prepare_dataframe t0).headers.isEmpty) = false)
    (ht : timeStep (prepare_dataframe t0) = Except.ok t')
    (hl : runLoop t' = Except.ok st)
    (hs : st.summaries.isEmpty = true) :
    buildReport t0 = Except.error Err.noRecognizedParameters := by
  simp only [buildReport, hne, Bool.false_eq_true, if_false, ht, hl, hs,
    if_true]

/-! Helper lemmas about the recommendation merge and the ML stage. -/

theorem mergeRecs_extends (l : List String) :
    ∀ acc : List String, ∃ tl, mergeRecs acc l = acc ++ tl := by
  induction l with
  | nil =>
    intro acc
    exact ⟨[], by simp [mergeRecs]⟩
  | cons r l ih =>
    intro acc
    by_cases hcon : acc.contains r = true
    · rcases ih acc with ⟨tl, htl⟩
      refine ⟨tl, ?_⟩
      rw [mergeRecs, List.foldl_cons, if_pos hcon]
      rw [mergeRecs] at htl
      exact htl
    · rcases ih (acc ++ [r]) with ⟨tl, htl⟩
      refine ⟨r :: tl, ?_⟩
      rw [mergeRecs, List.foldl_cons, if_neg hcon]
      rw [mergeRecs] at htl
      rw [htl, List.append_assoc]
      rfl

theorem mem_ite_list {P : Prop} [Decidable P] (l1 l2 : List String)
    (r : String) (h : r ∈ if P then l1 else l2) : r ∈ l1 ∨ r ∈ l2 := by
  split_ifs at h
  · exact Or.inl h
  · exact Or.inr h

theorem mlRawRecs_subset (t : RawTable) :
    ∀ r ∈ mlRawRecs t, r ∈ mlRecPool := by
  intro r hr
  simp only [mlRawRecs] at hr
  rcases List.mem_append.mp hr with hr1 | hr1
  · rcases List.mem_append.mp hr1 with hr2 | hr2
    · rcases List.mem_append.mp hr2 with hr3 | hr3
      · by_cases hp : ((mlScoreLabel t).map Prod.snd) = some "POLLUTED"
        · rw [if_pos hp] at hr3
          rw [List.mem_singleton.mp hr3]
          decide
        · rw [if_neg hp] at hr3
          rcases mem_ite_list _ _ _ hr3 with hr4 | hr4
          · rw [List.mem_singleton.mp hr4]
            decide
          · cases hr4
      · rcases mem_ite_list _ _ _ hr3 with hr4 | hr4
        · rw [List.mem_singleton.mp hr4]
          decide
        · cases hr4
    · rcases mem_ite_list _ _ _ hr2 with hr4 | hr4
      · rw [List.mem_singleton.mp hr4]
        decide
      · cases hr4
  · rcases mem_ite_list _ _ _ hr1 with hr4 | hr4
    · rw [List.mem_singleton.mp hr4]
      decide
    · cases hr4

theorem ml_snd_ne_nil (t : RawTable) : (get_ml_insights t).2 ≠ [] := by
  rw [get_ml_insights]
  dsimp only
  by_cases h : (mlRawRecs t).isEmpty = true
  · rw [if_pos h]
    simp
  · rw [if_neg h]
    intro hc
    rw [hc] at h
    exact h rfl

theorem ml_snd_subset (t : RawTable) :
    ∀ r ∈ (get_ml_insights t).2, r ∈ mlRecPool := by
  intro r hr
  rw [get_ml_insights] at hr
  dsimp only at hr
  by_cases h : (mlRawRecs t).isEmpty = true
  · rw [if_pos h] at hr
    rw [List.mem_singleton.mp hr]
    decide
  · rw [if_neg h] at hr
    exact mlRawRecs_subset t r hr

theorem thresholdAllClear_not_pool : thresholdAllClear ∉ mlRecPool := by
  decide

theorem merged_recs_props (t : RawTable) :
    (mergeRecs [thresholdAllClear] (get_ml_insights t).2).head? =
      some thresholdAllClear ∧
    2 ≤ (mergeRecs [thresholdAllClear] (get_ml_insights t).2).length := by
  rcases hml : (get_ml_insights t).2 with _ | ⟨r1, rest⟩
  · exact absurd hml (ml_snd_ne_nil t)
  · have hr1 : r1 ∈ mlRecPool := by
      apply ml_snd_subset t r1
      rw [hml]
      exact List.mem_cons_self _ _
    have hne : r1 ≠ thresholdAllClear := by
      intro he
      rw [he] at hr1
      exact thresholdAllClear_not_pool hr1
    have hnm : r1 ∉ [thresholdAllClear] := by
      intro hm
      exact hne (List.mem_singleton.mp hm)
    have hcon : ([thresholdAllClear].contains r1) = false := by
      simpa using hnm
    have hstep : mergeRecs [thresholdAllClear] (r1 :: rest) =
        mergeRecs [thresholdAllClear, r1] rest := by
      rw [mergeRecs, List.foldl_cons, if_neg (by rw [hcon]; exact
        Bool.false_ne_true), mergeRecs]
      rfl
    rcases mergeRecs_extends rest [thresholdAllClear, r1] with ⟨tl, htl⟩
    rw [hstep, htl]
    constructor
    · rfl
    · simp

/-! Helper lemmas about the pollution scorer. -/

theorem compute_fst (v : String → List ℚ) :
    (compute_pollution_score v).1 =
      bodPoints (v "bod") + doPoints (v "do") + codPoints (v "cod") +
        phPoints (v "ph") + tdsPoints (v "tds") := by
  simp only [compute_pollution_score, bodPoints, doPoints, codPoints,
    phPoints, tdsPoints]
  ring

theorem compute_snd (v : String → List ℚ) :
    (compute_pollution_score v).2 = labelOf (compute_pollution_score v).1 :=
  rfl

theorem bodPoints_half (l : List ℚ) : ∃ k : ℕ, bodPoints l = k / 2 ∧ k ≤ 4 := by
  rw [bodPoints]
  split_ifs
  · exact ⟨4, by norm_num⟩
  · exact ⟨2, by norm_num⟩
  · exact ⟨0, by norm_num⟩
  · exact ⟨0, by norm_num⟩

theorem doPoints_half (l : List ℚ) : ∃ k : ℕ, doPoints l = k / 2 ∧ k ≤ 4 := by
  rw [doPoints]
  split_ifs
  · exact ⟨4, by norm_num⟩
  · exact ⟨2, by norm_num⟩
  · exact ⟨0, by norm_num⟩
  · exact ⟨0, by norm_num⟩

theorem codPoints_half (l : List ℚ) : ∃ k : ℕ, codPoints l = k / 2 ∧ k ≤ 2 := by
  rw [codPoints]
  split_ifs
  · exact ⟨2, by norm_num⟩
  · exact ⟨0, by norm_num⟩

theorem phPoints_half (l : List ℚ) : ∃ k : ℕ, phPoints l = k / 2 ∧ k ≤ 1 := by
  rw [phPoints]
  split_ifs
  · exact ⟨1, by norm_num⟩
  · exact ⟨0, by norm_num⟩
  · exact ⟨0, by norm_num⟩

theorem tdsPoints_half (l : List ℚ) : ∃ k : ℕ, tdsPoints l = k / 2 ∧ k ≤ 1 := by
  rw [tdsPoints]
  split_ifs
  · exact ⟨1, by norm_num⟩
  · exact ⟨0, by norm_num⟩

/-! Helper lemmas dissecting a successful loop run. -/

theorem buildReport_eq_error_time (t0 : RawTable) (e : Err)
    (hne : ((prepare_dataframe t0).rows.isEmpty ||
      (prepare_dataframe t0).headers.isEmpty) = false)
    (ht : timeStep (prepare_dataframe t0) = Except.error e) :
    buildReport t0 = Except.error e := by
  simp only [buildReport, hne, Bool.false_eq_true, if_false, ht]

theorem processKey_ok_inv (t : RawTable) (st : LoopState) (key : String)
    (cfg : ParamConfig) (st1 : LoopState)
    (h : processKey t st key cfg = Except.ok st1) :
    (∀ s ∈ st.summaries, s ∈ st1.summaries) ∧
    (st1.recommendations = st.recommendations ∨
      ∃ s ∈ st1.summaries, s.status ≠ "ok") := by
  rcases hm : match_parameter_column t.headers key with _ | c
  · rw [processKey_of_match_none t st key cfg hm] at h
    injection h with h'
    subst h'
    exact ⟨fun s hs => hs, Or.inl rfl⟩
  · by_cases hd : labelCount t c ≠ 1
    · rw [processKey_of_dup t st key cfg c hm hd] at h
      cases h
    · have hu : labelCount t c = 1 := not_ne_iff.mp hd
      rcases hall : ((columnCells t c).map cellToNumeric).all Option.isNone
        with _ | _
      · have hv := (not_allNone_iff_any _).mp hall
        rcases processKey_of_someVal t st key cfg c hm hu hv with
          ⟨st', he, -, -, hmono, hrec⟩
        rw [he] at h
        injection h with h'
        subst h'
        exact ⟨hmono, hrec⟩
      · rw [processKey_of_allNone t st key cfg c hm hu hall] at h
        injection h with h'
        subst h'
        exact ⟨fun s hs => hs, Or.inl rfl⟩

theorem foldlM_ok_inv (t : RawTable) (ps : List (String × ParamConfig)) :
    ∀ st0 st : LoopState,
    ps.foldlM (fun st p => processKey t st p.1 p.2) st0 = Except.ok st →
    (∀ s ∈ st0.summaries, s ∈ st.summaries) ∧
    ((st0.recommendations = [] ∨ ∃ s ∈ st0.summaries, s.status ≠ "ok") →
      (st.recommendations = [] ∨ ∃ s ∈ st.summaries, s.status ≠ "ok")) := by
  induction ps with
  | nil =>
    intro st0 st h
    injection h with h'
    subst h'
    exact ⟨fun s hs => hs, fun h1 => h1⟩
  | cons p ps ih =>
    intro st0 st h
    rw [List.foldlM_cons] at h
    rcases hpk : processKey t st0 p.1 p.2 with e | st1
    · rw [hpk, except_bind_error] at h
      cases h
    · rw [hpk, except_bind_ok] at h
      rcases processKey_ok_inv t st0 p.1 p.2 st1 hpk with ⟨hmono1, hrec1⟩
      rcases ih st1 st h with ⟨hmono2, hrec2⟩
      refine ⟨fun s hs => hmono2 s (hmono1 s hs), ?_⟩
      intro h1
      apply hrec2
      rcases hrec1 with h2 | h2
      · rcases h1 with h3 | h3
        · exact Or.inl (h2.trans h3)
        · rcases h3 with ⟨s, hs, hsb⟩
          exact Or.inr ⟨s, hmono1 s hs, hsb⟩
      · exact Or.inr h2

/-! Claim theorems. -/

/-- C2: compute_pollution_score is additive and independent per
parameter with the claimed breakpoints (organic load max above 6 adds 2
else above 3 adds 1; oxygen min below 3 adds 2 else below 5 adds 1;
secondary organic max above 250 adds 1; acidity mean outside 6.5 to 8.5
adds one half; dissolved solids max above 2000 adds one half; absent or
empty lists contribute zero), the label is POLLUTED at score at least 3,
MODERATE at score at least 1.5, else GOOD, and the two example mappings
score 4 POLLUTED and 0 GOOD respectively. -/
theorem C2_pollution_score :
    (∀ v : String → List ℚ,
      (compute_pollution_score v).1 =
        bodPoints (v "bod") + doPoints (v "do") + codPoints (v "cod") +
          phPoints (v "ph") + tdsPoints (v "tds") ∧
      (compute_pollution_score v).2 =
        labelOf (compute_pollution_score v).1) ∧
    compute_pollution_score exVals1 = (4, "POLLUTED") ∧
    compute_pollution_score exVals2 = (0, "GOOD") := by
  refine ⟨fun v => ⟨compute_fst v, compute_snd v⟩,
    of_decide_eq_true (by with_unfolding_all rfl),
    of_decide_eq_true (by with_unfolding_all rfl)⟩

/-- C10: the pollution score is always a non-negative integer multiple
of one half and never exceeds 6. -/
theorem C10_score_bounds :
    ∀ v : String → List ℚ, ∃ n : ℕ,
      (compute_pollution_score v).1 = n / 2 ∧ n ≤ 12 ∧
      0 ≤ (compute_pollution_score v).1 ∧
      (compute_pollution_score v).1 ≤ 6 := by
  intro v
  obtain ⟨k1, h1, b1⟩ := bodPoints_half (v "bod")
  obtain ⟨k2, h2, b2⟩ := doPoints_half (v "do")
  obtain ⟨k3, h3, b3⟩ := codPoints_half (v "cod")
  obtain ⟨k4, h4, b4⟩ := phPoints_half (v "ph")
  obtain ⟨k5, h5, b5⟩ := tdsPoints_half (v "tds")
  refine ⟨k1 + k2 + k3 + k4 + k5, ?_, by omega, ?_, ?_⟩
  · rw [compute_fst, h1, h2, h3, h4, h5]
    push_cast
    ring
  · rw [compute_fst, h1, h2, h3, h4, h5]
    positivity
  · rw [compute_fst, h1, h2, h3, h4, h5]
    have hk : (k1 : ℚ) + k2 + k3 + k4 + k5 ≤ 12 := by
      have : k1 + k2 + k3 + k4 + k5 ≤ 12 := by omega
      exact_mod_cast this
    linarith

/-- C3 counterexample: on the claim's own example cell the embedded
coercion (which keeps every minus sign before parsing, so the remainder
5-3.1 fails to parse) yields null, while the specification's
strip-then-parse procedure (which keeps only a single leading minus
sign, leaving 53.1) yields a number; the two disagree. -/
theorem C3_counterexample :
    coerce_cell "n=5, val: -3.1" = none ∧
    coerceCellSpec "n=5, val: -3.1" = some (531 / 10) ∧
    (none : Option ℚ) ≠ some (531 / 10) := by
  refine ⟨of_decide_eq_true (by with_unfolding_all rfl),
    of_decide_eq_true (by with_unfolding_all rfl),
    of_decide_eq_true (by with_unfolding_all rfl)⟩

/-- C3 amended: numeric coercion strips every character that is not a
digit, a minus sign, or a decimal point (keeping all occurrences), and
the remainder parses as a double exactly when it is a plain decimal
numeral — an optional single leading minus sign followed by digits with
at most one decimal point and at least one digit — in which case its
value is the numeral's value; otherwise the cell becomes null.  In
particular 7.2 ppm coerces to 7.2 while the cell n=5, val: -3.1 becomes
null. -/
theorem C3_amended :
    (∀ s : String, coerce_cell s =
      if plainNumeral (pdStrip s).data then
        some (numeralValue (pdStrip s).data)
      else none) ∧
    coerce_cell "7.2 ppm" = some (36 / 5) ∧
    coerce_cell "n=5, val: -3.1" = none := by
  exact ⟨coerce_cell_eq, of_decide_eq_true (by with_unfolding_all rfl),
    of_decide_eq_true (by with_unfolding_all rfl)⟩

/-- C8: missing values of a resolved column are filled forward then
backward before statistics (the example column 7.0, null, null, 7.4
becomes 7.0, 7.0, 7.0, 7.4, and a column with any value fills
completely), a resolved column that is entirely null after coercion
produces no summary and is skipped, and a resolved column with at least
one numeric value produces exactly one summary. -/
theorem C8_gap_fill :
    bfill (ffill [some 7, none, none, some (37 / 5)]) =
      [some 7, some 7, some 7, some (37 / 5)] ∧
    (∀ vals : List (Option ℚ), vals.any Option.isSome = true →
      (bfill (ffill vals)).all Option.isSome = true) ∧
    (∀ (t : RawTable) (st : LoopState) (key : String) (cfg : ParamConfig)
      (c : String), match_parameter_column t.headers key = some c →
      labelCount t c = 1 →
      ((columnCells t c).map cellToNumeric).all Option.isNone = true →
      processKey t st key cfg = Except.ok st) ∧
    (∀ (t : RawTable) (st : LoopState) (key : String) (cfg : ParamConfig)
      (c : String), match_parameter_column t.headers key = some c →
      labelCount t c = 1 →
      ((columnCells t c).map cellToNumeric).any Option.isSome = true →
      ∃ st', processKey t st key cfg = Except.ok st' ∧
        st'.summaries.length = st.summaries.length + 1) := by
  refine ⟨of_decide_eq_true (by with_unfolding_all rfl), fill_all_isSome,
    processKey_of_allNone, ?_⟩
  intro t st key cfg c h hu hv
  rcases processKey_of_someVal t st key cfg c h hu hv with ⟨st', he, hl, -⟩
  exact ⟨st', he, hl⟩

/-- C8 witness: on the concrete table whose dissolved-oxygen column
holds only the text abc, the column resolves, coerces to all-null, and
the loop body leaves the state untouched. -/
theorem C8_gap_fill_witness :
    processKey (timeAligned (prepare_dataframe exAbc)) ⟨[], [], [], []⟩
      "do" ⟨"x", "y", none, none, none⟩ = Except.ok ⟨[], [], [], []⟩ :=
  C8_gap_fill.2.2.1 (timeAligned (prepare_dataframe exAbc))
    ⟨[], [], [], []⟩ "do" ⟨"x", "y", none, none, none⟩ "do"
    (by with_unfolding_all rfl) (by with_unfolding_all rfl)
    (by with_unfolding_all rfl)

/-- C1: with positive configured thresholds (as every entry of the
PARAMETERS registry has), the evaluator assigns ok exactly when neither
threshold is violated by the series minimum and maximum, warning exactly
when a threshold is violated but the hysteresis escalation does not
fire, and critical exactly when the minimum falls below 0.8 times the
min threshold or the maximum exceeds 1.2 times the max threshold.
Turbidity's configured max threshold is 5.0, and a series with maximum
5.5 is warning, 6.1 critical, 4.9 ok. -/
theorem C1_threshold_severity :
    (∀ (tmin tmax : Option ℚ) (vmin vmax : ℚ),
      (∀ m, tmin = some m → 0 < m) → (∀ m, tmax = some m → 0 < m) →
      ((evaluate_status tmin tmax vmin vmax = "critical" ↔
        hystViol tmin tmax vmin vmax = true) ∧
       (evaluate_status tmin tmax vmin vmax = "warning" ↔
        ((minViol tmin vmin || maxViol tmax vmax) = true ∧
          hystViol tmin tmax vmin vmax = false)) ∧
       (evaluate_status tmin tmax vmin vmax = "ok" ↔
        (minViol tmin vmin || maxViol tmax vmax) = false))) ∧
    (∀ p ∈ PARAMETERS, (∀ m, p.2.tmin = some m → 0 < m) ∧
      (∀ m, p.2.tmax = some m → 0 < m)) ∧
    paramConfig "turbidity" = some ⟨"Turbidity", "NTU", none, some 5,
      some "Check filters/backwash to reduce particulate load."⟩ ∧
    evaluate_status none (some 5) (11 / 2) (11 / 2) = "warning" ∧
    evaluate_status none (some 5) (61 / 10) (61 / 10) = "critical" ∧
    evaluate_status none (some 5) (49 / 10) (49 / 10) = "ok" := by
  refine ⟨?_, ?_, by with_unfolding_all rfl, by with_unfolding_all rfl,
    by with_unfolding_all rfl, by with_unfolding_all rfl⟩
  · intro tmin tmax vmin vmax hpmin hpmax
    have himp : hystViol tmin tmax vmin vmax = true →
        (minViol tmin vmin || maxViol tmax vmax) = true := by
      intro hh
      simp only [hystViol] at hh
      rcases hA : (match tmin with
        | some m => decide (vmin < m * (8 / 10))
        | none => false) with _ | _
      · rw [hA, Bool.false_or] at hh
        rcases tmax with _ | M
        · simp at hh
        · simp only [decide_eq_true_eq] at hh
          have hM := hpmax M rfl
          have hgt : vmax > M := by nlinarith
          have hmv : maxViol (some M) vmax = true := by
            simp [maxViol, hgt]
          rw [hmv, Bool.or_true]
      · rcases tmin with _ | m
        · cases hA
        · simp only [decide_eq_true_eq] at hA
          have hm := hpmin m rfl
          have hlt : vmin < m := by nlinarith
          have hmv : minViol (some m) vmin = true := by
            simp [minViol, hlt]
          rw [hmv, Bool.true_or]
    by_cases hH : hystViol tmin tmax vmin vmax = true
    · have hV := himp hH
      have hE : evaluate_status tmin tmax vmin vmax = "critical" := by
        simp only [evaluate_status, hH, if_true]
      rw [hE]
      refine ⟨⟨fun _ => hH, fun _ => rfl⟩, ?_, ?_⟩
      · constructor
        · intro hcw
          exact absurd hcw (by decide)
        · rintro ⟨-, hhf⟩
          rw [hH] at hhf
          cases hhf
      · constructor
        · intro hco
          exact absurd hco (by decide)
        · intro hVf
          rw [hVf] at hV
          cases hV
    · have hHf : hystViol tmin tmax vmin vmax = false := by
        rcases hb : hystViol tmin tmax vmin vmax with _ | _
        · rfl
        · exact absurd hb hH
      by_cases hV : (minViol tmin vmin || maxViol tmax vmax) = true
      · have hE : evaluate_status tmin tmax vmin vmax = "warning" := by
          simp only [evaluate_status, hHf, Bool.false_eq_true, if_false]
          rcases hB : maxViol tmax vmax with _ | _
          · rw [hB, Bool.or_false] at hV
            simp [hB, hV]
          · simp [hB]
        rw [hE]
        refine ⟨?_, ⟨fun _ => ⟨hV, hHf⟩, fun _ => rfl⟩, ?_⟩
        · constructor
          · intro h
            exact absurd h (by decide)
          · intro hh
            rw [hHf] at hh
            cases hh
        · constructor
          · intro h
            exact absurd h (by decide)
          · intro hVf
            rw [hVf] at hV
            cases hV
      · have hVf : (minViol tmin vmin || maxViol tmax vmax) = false := by
          rcases hb : (minViol tmin vmin || maxViol tmax vmax) with _ | _
          · rfl
          · exact absurd hb hV
        have hA : minViol tmin vmin = false := by
          rcases hb : minViol tmin vmin with _ | _
          · rfl
          · rw [hb, Bool.true_or] at hVf
            cases hVf
        have hB : maxViol tmax vmax = false := by
          rcases hb : maxViol tmax vmax with _ | _
          · rfl
          · rw [hb, Bool.or_true] at hVf
            cases hVf
        have hE : evaluate_status tmin tmax vmin vmax = "ok" := by
          simp [evaluate_status, hHf, hA, hB]
        rw [hE]
        refine ⟨?_, ?_, ⟨fun _ => hVf, fun _ => rfl⟩⟩
        · constructor
          · intro h
            exact absurd h (by decide)
          · intro hh
            rw [hHf] at hh
            cases hh
        · constructor
          · intro h
            exact absurd h (by decide)
          · rintro ⟨hv, -⟩
            rw [hVf] at hv
            cases hv
  · intro p hp
    fin_cases hp <;> constructor <;> rintro m hm <;> (try cases hm) <;>
      norm_num

/-- C1 witness: the characterization applied to the turbidity threshold
at the concrete series maximum 6.1, whose positivity hypotheses hold. -/
theorem C1_threshold_severity_witness :
    evaluate_status none (some 5) (61 / 10) (61 / 10) = "critical" ↔
      hystViol none (some 5) (61 / 10) (61 / 10) = true :=
  (C1_threshold_severity.1 none (some 5) (61 / 10) (61 / 10)
    (fun m hm => by cases hm)
    (fun m hm => by injection hm with h; rw [← h]; norm_num)).1

/-- C7: the column resolver applies its strategies in order with the
first hit winning.  Every recognized key is its own alias, so a literal
slug-equals-key hit is already an alias hit; when some header scores an
alias or slug hit the resolver returns the first such header; the
resolver returns none exactly when no header has an alias or slug hit
and no keyword fragment of the key occurs in any lowercased header; a
resolution always returns one of the headers; and the header D.O. level,
whose slug matches nothing, is still resolved for the
dissolved-oxygen key through the punctuation-sensitive keyword d.o. on
the lowercased (not slug-normalized) header. -/
theorem C7_resolver_strategies :
    (∀ key ∈ paramKeys, aliasLookup key = some key) ∧
    (∀ (cols : List String) (key : String),
      (cols.find? (strategy1Hit key)).isSome = true →
      match_parameter_column cols key = cols.find? (strategy1Hit key)) ∧
    (∀ (cols : List String) (key : String),
      match_parameter_column cols key = none ↔
      ∀ c ∈ cols, strategy1Hit key c = false ∧ keywordHit key c = false) ∧
    (∀ (cols : List String) (key c : String),
      match_parameter_column cols key = some c → c ∈ cols) ∧
    match_parameter_column ["D.O. level"] "do" = some "D.O. level" ∧
    strategy1Hit "do" "D.O. level" = false := by
  refine ⟨by decide, ?_, match_none_iff, match_some_mem,
    by with_unfolding_all rfl, by with_unfolding_all rfl⟩
  intro cols key hsome
  rcases hf : cols.find? (strategy1Hit key) with _ | c
  · rw [hf] at hsome
    cases hsome
  · simp only [match_parameter_column, hf]

/-- C7 witness: the characterization applied to a concrete header list
in which only the second header matches, through its keyword. -/
theorem C7_resolver_strategies_witness :
    "D.O. meter" ∈ ["flow rate", "D.O. meter"] :=
  C7_resolver_strategies.2.2.2.1 ["flow rate", "D.O. meter"] "do"
    "D.O. meter" (by with_unfolding_all rfl)

/-- C4 counterexample: on the specification's own duplicate-header
example (headers DO (mg/L) and do, which both end up labelled do), the
code does not collapse the columns into one series; report building
aborts with the column-selection type error, so no report — let alone
one with the collapsed column — is produced. -/
theorem C4_counterexample :
    reportErr (buildReport exDup) = some Err.typeError ∧
    reportOk (buildReport exDup) = false := by
  refine ⟨by with_unfolding_all rfl, by with_unfolding_all rfl⟩

/-- C4 amended: when multiple raw columns resolve to the same parameter
key, they are not collapsed; selecting the duplicated label yields a
multi-column frame whose numeric conversion raises, so report building
fails with the type error (given that the table survives cleaning and
time alignment succeeds). -/
theorem C4_amended : ∀ t0 : RawTable,
    ((prepare_dataframe t0).rows.isEmpty ||
      (prepare_dataframe t0).headers.isEmpty) = false →
    (∀ c, findTimeColumn (prepare_dataframe t0).headers = some c →
      labelCount (prepare_dataframe t0) c = 1) →
    (∃ key ∈ paramKeys, ∃ c,
      match_parameter_column
        (timeAligned (prepare_dataframe t0)).headers key = some c ∧
      labelCount (timeAligned (prepare_dataframe t0)) c ≠ 1) →
    buildReport t0 = Except.error Err.typeError := by
  intro t0 hne htime hdup
  have ht := timeStep_eq _ htime
  have hl : runLoop (timeAligned (prepare_dataframe t0)) =
      Except.error Err.typeError := by
    apply foldlM_loop_dup
    rcases hdup with ⟨key, hk, c, hc, hd⟩
    rcases List.mem_map.mp hk with ⟨p, hp, hpk⟩
    refine ⟨p, hp, c, ?_, hd⟩
    rw [hpk]
    exact hc
  exact buildReport_eq_error_loop t0 _ Err.typeError hne ht hl

/-- C4 witness: a table whose two headers bod and b.o.d x both map to
the organic-load key fails with the type error. -/
theorem C4_amended_witness :
    buildReport exDupW = Except.error Err.typeError := by
  apply C4_amended exDupW (by with_unfolding_all rfl)
  · intro c hc
    have hn : findTimeColumn (prepare_dataframe exDupW).headers = none := by
      with_unfolding_all rfl
    rw [hn] at hc
    cases hc
  · refine ⟨"bod", by decide, "bod", by with_unfolding_all rfl, ?_⟩
    have h2 : labelCount (timeAligned (prepare_dataframe exDupW)) "bod" =
        2 := by with_unfolding_all rfl
    rw [h2]
    decide

/-- C5 counterexample: a one-row table whose only column do resolves to
the dissolved-oxygen key, yet report building fails (the lone cell abc
coerces to null, so no parameter survives), refuting the unconditional
success claim. -/
theorem C5_counterexample :
    (prepare_dataframe exAbc).rows.length = 1 ∧
    (match_parameter_column (prepare_dataframe exAbc).headers "do").isSome
      = true ∧
    "do" ∈ paramKeys ∧
    reportOk (buildReport exAbc) = false := by
  refine ⟨by with_unfolding_all rfl, by with_unfolding_all rfl, by decide,
    by with_unfolding_all rfl⟩

/-- C5 amended: report building succeeds — and every summary satisfies
minimum at most average at most maximum on the rounded statistics —
provided the cleaned table is nonempty, time alignment succeeds, every
resolved parameter label is unique, and at least one resolved column
carries at least one coercible numeric value. -/
theorem C5_amended : ∀ t0 : RawTable,
    ((prepare_dataframe t0).rows.isEmpty ||
      (prepare_dataframe t0).headers.isEmpty) = false →
    (∀ c, findTimeColumn (prepare_dataframe t0).headers = some c →
      labelCount (prepare_dataframe t0) c = 1) →
    (∀ key ∈ paramKeys, ∀ c,
      match_parameter_column
        (timeAligned (prepare_dataframe t0)).headers key = some c →
      labelCount (timeAligned (prepare_dataframe t0)) c = 1) →
    (∃ key ∈ paramKeys, ∃ c,
      match_parameter_column
        (timeAligned (prepare_dataframe t0)).headers key = some c ∧
      ((columnCells (timeAligned (prepare_dataframe t0)) c).map
        cellToNumeric).any Option.isSome = true) →
    reportOk (buildReport t0) = true ∧
    (reportSummaries (buildReport t0)).all goodSummary = true := by
  intro t0 hne htime huniq hval
  have ht := timeStep_eq _ htime
  have hu' : ∀ p ∈ PARAMETERS, ∀ c,
      match_parameter_column
        (timeAligned (prepare_dataframe t0)).headers p.1 = some c →
      labelCount (timeAligned (prepare_dataframe t0)) c = 1 := by
    intro p hp c hc
    exact huniq p.1 (List.mem_map.mpr ⟨p, hp, rfl⟩) c hc
  rcases foldlM_loop_props (timeAligned (prepare_dataframe t0)) PARAMETERS
    ⟨[], [], [], []⟩ hu' with ⟨st, hst, hgood, -, -, -, hvlen⟩
  have hl : runLoop (timeAligned (prepare_dataframe t0)) = Except.ok st :=
    hst
  have hlen : 0 < st.summaries.length := by
    apply hvlen
    rcases hval with ⟨key, hk, c, hc, hcv⟩
    rcases List.mem_map.mp hk with ⟨p, hp, hpk⟩
    refine ⟨p, hp, c, ?_, hcv⟩
    rw [hpk]
    exact hc
  have hsne : st.summaries.isEmpty = false := by
    rcases hb : st.summaries.isEmpty with _ | _
    · rfl
    · rw [List.isEmpty_iff.mp hb] at hlen
      simp at hlen
  have hbr := buildReport_eq_ok t0 _ st hne ht hl hsne
  rw [hbr]
  refine ⟨rfl, ?_⟩
  show (assembleReport (timeAligned (prepare_dataframe t0))
    st).parameters.all goodSummary = true
  have hpar : (assembleReport (timeAligned (prepare_dataframe t0))
      st).parameters = st.summaries := rfl
  rw [hpar, List.all_eq_true]
  intro s hs
  rcases hgood s hs with h1 | h1
  · cases h1
  · exact h1

/-- C5 witness: a one-row pH table with value 7 builds successfully and
its summaries are consistently ordered. -/
theorem C5_amended_witness :
    reportOk (buildReport exPh7) = true ∧
    (reportSummaries (buildReport exPh7)).all goodSummary = true := by
  apply C5_amended exPh7 (by with_unfolding_all rfl)
  · intro c hc
    have hn : findTimeColumn (prepare_dataframe exPh7).headers = none := by
      with_unfolding_all rfl
    rw [hn] at hc
    cases hc
  · intro key hk c hc
    have hmatches : ∀ k ∈ paramKeys,
        match_parameter_column
          (timeAligned (prepare_dataframe exPh7)).headers k =
        (if k = "ph" then some "ph" else none) := by
      with_unfolding_all decide
    rw [hmatches key hk] at hc
    by_cases hkey : key = "ph"
    · rw [if_pos hkey] at hc
      injection hc with h
      rw [← h]
      with_unfolding_all rfl
    · rw [if_neg hkey] at hc
      cases hc
  · refine ⟨"ph", by decide, "ph", by with_unfolding_all rfl,
      by with_unfolding_all rfl⟩

/-- C6 counterexample: a table with an unrecognized header whose single
row is entirely missing cleans to an empty frame, and report assembly
fails with the empty-dataset error rather than NoRecognizedParameters,
refuting the claim for such tables. -/
theorem C6_counterexample :
    (paramKeys.all (fun k =>
      (match_parameter_column (prepare_dataframe exStation).headers
        k).isNone)) = true ∧
    reportErr (buildReport exStation) = some Err.emptyAfterCleaning ∧
    Err.emptyAfterCleaning ≠ Err.noRecognizedParameters := by
  refine ⟨by with_unfolding_all rfl, by with_unfolding_all rfl, by decide⟩

/-- C6 amended: when the cleaned table is nonempty, time alignment
succeeds, and no column resolves to any recognized parameter key, report
assembly fails with NoRecognizedParameters; no partial or empty report
is returned. -/
theorem C6_amended : ∀ t0 : RawTable,
    ((prepare_dataframe t0).rows.isEmpty ||
      (prepare_dataframe t0).headers.isEmpty) = false →
    (∀ c, findTimeColumn (prepare_dataframe t0).headers = some c →
      labelCount (prepare_dataframe t0) c = 1) →
    (∀ key ∈ paramKeys,
      match_parameter_column
        (timeAligned (prepare_dataframe t0)).headers key = none) →
    buildReport t0 = Except.error Err.noRecognizedParameters := by
  intro t0 hne htime hnores
  have ht := timeStep_eq _ htime
  have hl : runLoop (timeAligned (prepare_dataframe t0)) =
      Except.ok ⟨[], [], [], []⟩ := by
    apply foldlM_loop_none
    intro p hp
    exact hnores p.1 (List.mem_map.mpr ⟨p, hp, rfl⟩)
  exact buildReport_eq_error_noRec t0 _ ⟨[], [], [], []⟩ hne ht hl rfl

/-- C6 witness: a table whose only column station resolves to nothing,
with one surviving row, fails with NoRecognizedParameters. -/
theorem C6_amended_witness :
    buildReport exStationRow = Except.error Err.noRecognizedParameters := by
  apply C6_amended exStationRow (by with_unfolding_all rfl)
  · intro c hc
    have hn : findTimeColumn (prepare_dataframe exStationRow).headers =
        none := by with_unfolding_all rfl
    rw [hn] at hc
    cases hc
  · with_unfolding_all decide

/-- C9 counterexample: a report built from a single in-range
dissolved-oxygen reading has every summary ok, yet its recommendations
list holds two entries (the threshold stage default and the ML stage
default), not a single default recommendation. -/
theorem C9_counterexample :
    reportOk (buildReport exDo6) = true ∧
    (reportSummaries (buildReport exDo6)).all
      (fun s => s.status == "ok") = true ∧
    (reportRecs (buildReport exDo6)).length = 2 := by
  refine ⟨by with_unfolding_all rfl, by with_unfolding_all rfl,
    by with_unfolding_all rfl⟩

/-- C9 amended: in every successfully built report whose summaries are
all ok, the recommendations start with the single threshold-stage
default all-clear, but the ML stage always appends at least one further
recommendation (its own default when nothing fired), so the list has at
least two entries and is never the single default alone. -/
theorem C9_amended : ∀ t0 : RawTable,
    reportOk (buildReport t0) = true →
    (∀ s ∈ reportSummaries (buildReport t0), s.status = "ok") →
    (reportRecs (buildReport t0)).head? = some thresholdAllClear ∧
    2 ≤ (reportRecs (buildReport t0)).length := by
  intro t0 hok hall
  by_cases hne : ((prepare_dataframe t0).rows.isEmpty ||
      (prepare_dataframe t0).headers.isEmpty) = true
  · rw [buildReport_eq_error_empty t0 hne] at hok hall ⊢
    cases hok
  · have hne' : ((prepare_dataframe t0).rows.isEmpty ||
        (prepare_dataframe t0).headers.isEmpty) = false := by
      rcases hb : ((prepare_dataframe t0).rows.isEmpty ||
        (prepare_dataframe t0).headers.isEmpty) with _ | _
      · rfl
      · exact absurd hb hne
    rcases htt : timeStep (prepare_dataframe t0) with e | t'
    · rw [buildReport_eq_error_time t0 e hne' htt] at hok
      cases hok
    · rcases hll : runLoop t' with e | st
      · rw [buildReport_eq_error_loop t0 t' e hne' htt hll] at hok
        cases hok
      · by_cases hs : st.summaries.isEmpty = true
        · rw [buildReport_eq_error_noRec t0 t' st hne' htt hll hs] at hok
          cases hok
        · have hs' : st.summaries.isEmpty = false := by
            rcases hb : st.summaries.isEmpty with _ | _
            · rfl
            · exact absurd hb hs
          have hbr := buildReport_eq_ok t0 t' st hne' htt hll hs'
          rw [hbr] at hall ⊢
          have hallok : ∀ s ∈ st.summaries, s.status = "ok" := hall
          have hinv := foldlM_ok_inv t' PARAMETERS ⟨[], [], [], []⟩ st hll
          have hrecnil : st.recommendations = [] := by
            rcases hinv.2 (Or.inl rfl) with h1 | h1
            · exact h1
            · rcases h1 with ⟨s, hs2, hsb⟩
              exact absurd (hallok s hs2) hsb
          have hrecs : (assembleReport t' st).recommendations =
              mergeRecs [thresholdAllClear] (get_ml_insights t').2 := by
            show mergeRecs (if st.recommendations.isEmpty then
              [thresholdAllClear] else st.recommendations)
              (get_ml_insights t').2 = _
            rw [hrecnil]
            rfl
          show (reportRecs (Except.ok (assembleReport t' st))).head? =
              some thresholdAllClear ∧
            2 ≤ (reportRecs (Except.ok (assembleReport t' st))).length
          have hrr : reportRecs (Except.ok (assembleReport t' st)) =
              (assembleReport t' st).recommendations := rfl
          rw [hrr, hrecs]
          exact merged_recs_props t'

/-- C9 witness: the amended claim applied to the single in-range
dissolved-oxygen reading. -/
theorem C9_amended_witness :
    (reportRecs (buildReport exDo6)).head? = some thresholdAllClear ∧
    2 ≤ (reportRecs (buildReport exDo6)).length :=
  C9_amended exDo6 (by with_unfolding_all rfl)
    (by with_unfolding_all decide)

end WQAM
